import Mathlib

/-!
Verification development for the swmmnetwork flow-propagation engine
(`swmmnetwork/swmmnetwork.py`).

The embedding models the module faithfully:

* Numeric attribute values are rationals (`ℚ`), the standard exact model of
  the Python float arithmetic used by the engine; string attribute values
  are kept as strings because the engine matches configuration flags as
  substrings of identifier attributes.
* Node and edge attribute dictionaries are association lists from attribute
  name to value; `lookupA`/`setA` model `d[k]` reads and `d[k] = v` writes.
* The graph is the `networkx.MultiDiGraph` the class extends: a node list
  (identity paired with its attribute dict) and an edge list (source,
  destination, attribute dict).  Node identities are modelled as strings
  (the engine itself only uses them via `str(node)` substring tests and
  dictionary keys).
* Fallible dictionary accesses (`d[k]` on a missing key raising `KeyError`,
  arithmetic on a string raising `TypeError`/`ValueError`) are modelled with
  `Except`: `SolveErr.attrError` stands for any of those exceptions,
  `SolveErr.zeroDiv` for Python's `ZeroDivisionError`, and `SolveErr.cycle`
  for the `NetworkXUnfeasible` error raised by `networkx.topological_sort`
  on a cyclic graph.  Because `solve` mutates the graph in place, an
  aborted call leaves the partially mutated graph behind; the model
  therefore returns the partial graph together with the error.
* The column-name configuration is fixed at the constructor defaults of the
  source (`name_col='id'`, `vol_col='volume'`); the behavioural
  configuration (`treated`, `load_cols`, and the three flag lists) is kept
  generic, exactly the options of `SwmmNetwork.__init__`.  The source has
  no removal-efficiency option: line 219 hard-codes `(1 - 0.7)`.
* `topological_sort` is modelled as an eager sort computed before the node
  loop, matching the networkx 1.x API that the source targets (it uses the
  `G.node` accessor removed in networkx 2.4): the sort either fails on a
  cyclic graph before the loop body runs, or fixes the whole visiting
  order up front.  The model uses Kahn's algorithm; the source's note that
  callers must not depend on a specific tie-break makes the choice of
  order among ready nodes immaterial.
* The result-table assembly (`nodes_to_df`/`edges_to_df`/`pandas`) is the
  Result Assembler component, out of scope for the claims treated here;
  the model's `solve` returns the annotated graph, the collected overwrite
  warnings (`warnings.warn` calls), and the error outcome.
-/

/-- Attribute values stored in node/edge dictionaries: numbers or strings. -/
inductive AttrVal where
  | num (q : ℚ)
  | str (s : String)
deriving DecidableEq

/-- Attribute dictionary: association list from attribute name to value. -/
abbrev AttrMap := List (String × AttrVal)

/-- Dictionary lookup (first binding wins), modelling `d.get(k)` / `d[k]`. -/
def lookupA {α : Type} : List (String × α) → String → Option α
  | [], _ => none
  | (k', v) :: rest, k => if k' = k then some v else lookupA rest k

/-- Dictionary write `d[k] = v`: replaces the first binding of `k`, appends
if `k` is unbound. -/
def setA {α : Type} : List (String × α) → String → α → List (String × α)
  | [], k, v => [(k, v)]
  | (k', v') :: rest, k, v =>
    if k' = k then (k, v) :: rest else (k', v') :: setA rest k v

/-- Prefix test on character lists (auxiliary for the substring test). -/
def isPre : List Char → List Char → Bool
  | [], _ => true
  | _ :: _, [] => false
  | a :: as, b :: bs => a == b && isPre as bs

/-- Substring test on character lists (auxiliary for `strIn`). -/
def isSub (p : List Char) : List Char → Bool
  | [] => isPre p []
  | c :: rest => isPre p (c :: rest) || isSub p rest

/-- Python's `pat in s` substring containment test on strings. -/
def strIn (pat s : String) : Bool := isSub pat.data s.data

/-- Directed multigraph edge: source node, destination node, attribute dict.
Parallel edges are separate list entries, as in `networkx.MultiDiGraph`. -/
structure Edge where
  src : String
  dst : String
  data : AttrMap
deriving DecidableEq

/-- The graph underlying `SwmmNetwork`: nodes with attribute dicts, edges. -/
structure Graph where
  nodes : List (String × AttrMap)
  edges : List Edge
deriving DecidableEq

/-- The node identities of a graph. -/
def nodeKeys (G : Graph) : List String := G.nodes.map Prod.fst

/-- Attribute dictionary of a node (`self.node[node]`; the engine only
accesses nodes produced by the topological sort, which all exist). -/
def nodeMap (G : Graph) (n : String) : AttrMap := (lookupA G.nodes n).getD []

/-- Read one node attribute. -/
def nAttr (G : Graph) (n : String) (k : String) : Option AttrVal :=
  lookupA (nodeMap G n) k

/-- Write one node attribute (`self.node[node][k] = v`). -/
def setNode (G : Graph) (n : String) (k : String) (v : AttrVal) : Graph :=
  { G with nodes := setA G.nodes n (setA (nodeMap G n) k v) }

/-- Edge-selection directions of `sum_edge_attr`; for the directed
multigraph of the source, `edges` is the same as `out_edges` (see the
docstring of `sum_edge_attr` in the source). -/
inductive EdgeMethod where
  | edges
  | in_edges
  | out_edges
deriving DecidableEq

/-- Edges selected at a node in a given direction. -/
def edgesOf (G : Graph) (node : String) : EdgeMethod → List Edge
  | .in_edges => G.edges.filter (fun e => e.dst == node)
  | _ => G.edges.filter (fun e => e.src == node)

/-- Errors aborting `solve`: `cycle` models `NetworkXUnfeasible` from
`topological_sort`, `zeroDiv` models `ZeroDivisionError`, and `attrError`
models `KeyError`/`TypeError`/`ValueError` on attribute access or typing. -/
inductive SolveErr where
  | cycle
  | zeroDiv
  | attrError
deriving DecidableEq

/-- One step of Kahn's algorithm driven by fuel: pick a remaining node with
no incoming edge from a remaining node, output it, and recurse. -/
def topoAux (es : List Edge) : Nat → List String → Option (List String)
  | 0, ns => if ns = [] then some [] else none
  | fuel + 1, ns =>
    if ns = [] then some [] else
    match ns.find? (fun n => !(es.any (fun e => ns.contains e.src && e.dst == n))) with
    | none => none
    | some n =>
      match topoAux es fuel (ns.erase n) with
      | none => none
      | some rest => some (n :: rest)

/-- Model of `networkx.topological_sort` (networkx 1.x: eager, computed and
validated in full before the caller's loop body runs): `none` exactly when
no topological order exists. -/
def topological_sort (G : Graph) : Option (List String) :=
  topoAux G.edges G.nodes.length (nodeKeys G)

/-- Python line 104-107: guarded division returning 0 on a 0 denominator. -/
def safe_divide (x y : ℚ) : ℚ := if y = 0 then 0 else x / y

/-- Read `d.get(k, default)` for a numeric use site: the default if the key
is unbound, an error if the stored value is a string (the Python caller
would raise `TypeError` using it in arithmetic). -/
def numGetD (m : AttrMap) (k : String) (d : ℚ) : Except SolveErr ℚ :=
  match lookupA m k with
  | none => .ok d
  | some (.num q) => .ok q
  | some (.str _) => .error .attrError

/-- Read `d[k]` for a numeric use site: error on a missing key (`KeyError`)
or on a string value (`TypeError`/`ValueError` at the use). -/
def asNum : Option AttrVal → Except SolveErr ℚ
  | some (.num q) => .ok q
  | _ => .error .attrError

/-- Python's `any([i in key for i in flags])`: with an empty flag list the
comprehension body never runs and the result is `False` without touching
`key`; with a non-empty list, a numeric `key` raises `TypeError`. -/
def anyIn (flags : List String) (v : AttrVal) : Except SolveErr Bool :=
  match flags with
  | [] => .ok false
  | _ :: _ =>
    match v with
    | .str s => .ok (flags.any (fun f => strIn f s))
    | .num _ => .error .attrError

/-- Loop body of `sum_edge_attr` (source lines 79-102): accumulate the
`attr` values of the selected edges, applying the optional include/exclude
substring filters on the `filter_key` attribute.  The `filter_key` value is
read from every edge before any flag list is consulted (line 83). -/
def sumEdgeAttrAux (attr : String) (fk : Option String)
    (incl excl : Option (List String)) : List Edge → ℚ → Except SolveErr ℚ
  | [], val => .ok val
  | e :: rest, val =>
    match fk with
    | none =>
      match numGetD e.data attr 0 with
      | .error er => .error er
      | .ok q => sumEdgeAttrAux attr fk incl excl rest (val + q)
    | some k =>
      match lookupA e.data k with
      | none => .error .attrError
      | some kv =>
        match incl with
        | some iflags =>
          match anyIn iflags kv with
          | .error er => .error er
          | .ok b =>
            if b then
              match excl with
              | some eflags =>
                match anyIn eflags kv with
                | .error er => .error er
                | .ok b2 =>
                  if b2 then sumEdgeAttrAux attr fk incl excl rest val
                  else
                    match numGetD e.data attr 0 with
                    | .error er => .error er
                    | .ok q => sumEdgeAttrAux attr fk incl excl rest (val + q)
              | none =>
                match numGetD e.data attr 0 with
                | .error er => .error er
                | .ok q => sumEdgeAttrAux attr fk incl excl rest (val + q)
            else sumEdgeAttrAux attr fk incl excl rest val
        | none =>
          match excl with
          | some eflags =>
            match anyIn eflags kv with
            | .error er => .error er
            | .ok b2 =>
              if b2 then sumEdgeAttrAux attr fk incl excl rest val
              else
                match numGetD e.data attr 0 with
                | .error er => .error er
                | .ok q => sumEdgeAttrAux attr fk incl excl rest (val + q)
          | none =>
            match numGetD e.data attr 0 with
            | .error er => .error er
            | .ok q => sumEdgeAttrAux attr fk incl excl rest (val + q)

/-- Source lines 40-102: `sum_edge_attr`.  Sums an edge attribute over the
edges at `node` in the direction given by `method`, with optional
identifier-substring include/exclude filtering.  An empty selection sums
to 0 (the early `return val`). -/
def sum_edge_attr (G : Graph) (node : String) (attr : String)
    (method : EdgeMethod) (filter_key : Option String)
    (include_filter_flags exclude_filter_flags : Option (List String)) :
    Except SolveErr ℚ :=
  sumEdgeAttrAux attr filter_key include_filter_flags exclude_filter_flags
    (edgesOf G node method) 0

/-- Configuration of `SwmmNetwork.__init__` relevant to `solve`: the
treatment switch, the tracked load columns, and the three flag lists.
Constructor defaults: `treated=True`, `load_cols=['load']`,
`treated_flags=['TR']`, `vol_reduced_flags=['INF','HU']`,
`outfall_flags=['OF']`.  There is no removal-efficiency field: the source
hard-codes `0.7` at line 219. -/
structure Config where
  treated : Bool
  load_cols : List String
  treated_flags : List String
  vol_reduced_flags : List String
  outfall_flags : List String
deriving DecidableEq

/-- Overwrite warning issued by `warnings.warn` at source line 211-212,
identifying the edge (by its `id` attribute value) and the load column. -/
structure Warning where
  edge_name : AttrVal
  load_col : String
deriving DecidableEq

/-- Mutable state of one `solve` call: the graph plus collected warnings. -/
structure St where
  g : Graph
  ws : List Warning
deriving DecidableEq

/-- Source lines 202-220, one outgoing edge: the overwrite diagnostic
(lines 205-212: the `print` reads `data['id']`, `data['volume']` and
`data[load_col]` and divides by `data[load_col]`, so a pre-existing load of
0 raises `ZeroDivisionError`; otherwise `warnings.warn` fires), the load
write `data[load_col] = conc_in * data['volume']` (line 214), and the
hard-coded treatment override `(1 - 0.7) * conc_in * data['volume']` for
identifiers matching a treated flag when treatment is enabled
(lines 218-220).  On error the partially updated edge is returned. -/
def overwriteDiag (L : String) (e : Edge) : Except SolveErr (List Warning) :=
  match lookupA e.data L with
  | none => .ok []
  | some _ =>
    match lookupA e.data "id" with
    | none => .error .attrError
    | some namev =>
      match asNum (lookupA e.data "volume") with
      | .error er => .error er
      | .ok _ =>
        match asNum (lookupA e.data L) with
        | .error er => .error er
        | .ok old =>
          if old = 0 then .error .zeroDiv else .ok [⟨namev, L⟩]

def applyLoadEdge (cfg : Config) (L : String) (conc_in : ℚ) (e : Edge) :
    Except (Edge × List Warning × SolveErr) (Edge × List Warning) :=
  match overwriteDiag L e with
  | .error er => .error (e, [], er)
  | .ok ws =>
    match asNum (lookupA e.data "volume") with
    | .error er => .error (e, ws, er)
    | .ok vol =>
      let e1 : Edge := { e with data := setA e.data L (.num (conc_in * vol)) }
      if cfg.treated then
        match cfg.treated_flags with
        | [] => .ok (e1, ws)
        | tf =>
          match lookupA e1.data "id" with
          | none => .error (e1, ws, .attrError)
          | some (.num _) => .error (e1, ws, .attrError)
          | some (.str s) =>
            if tf.any (fun f => strIn f s) then
              .ok ({ e1 with data := setA e1.data L (.num ((1 - 7/10) * conc_in * vol)) }, ws)
            else .ok (e1, ws)
      else .ok (e1, ws)

/-- Source line 202: the loop `for edge in self.out_edges(node)` applying
`applyLoadEdge` to every edge leaving `n`, in edge-list order.  An error
stops the loop, keeping the updates already made. -/
def updateEdges (cfg : Config) (n L : String) (conc_in : ℚ) :
    List Edge → List Edge × List Warning × Option SolveErr
  | [] => ([], [], none)
  | e :: rest =>
    if e.src = n then
      match applyLoadEdge cfg L conc_in e with
      | .ok (e', ws) =>
        match updateEdges cfg n L conc_in rest with
        | (rest', ws', er) => (e' :: rest', ws ++ ws', er)
      | .error (e', ws, er) => (e' :: rest, ws, some er)
    else
      match updateEdges cfg n L conc_in rest with
      | (rest', ws', er) => (e :: rest', ws', er)

/-- Source lines 242-266: the per-load-type attribute writes on the node,
in source order (`load_out`, `load_reduced`, the guarded
`load_pct_reduced`, then the volume-derived attributes). -/
def writeLoadResults (n L : String)
    (vol_in load_in load_out vol_out vol_treated : ℚ) (g : Graph) : Graph :=
  let load_reduced := load_in - load_out
  let g1 := setNode g n (L ++ "_out") (.num load_out)
  let g2 := setNode g1 n (L ++ "_reduced") (.num load_reduced)
  let g3 := if load_in > 0 then
      setNode g2 n (L ++ "_pct_reduced") (.num (100 * (load_reduced / load_in)))
    else g2
  let vol_reduced := vol_in - vol_out
  let g4 := setNode g3 n "volume_out" (.num vol_out)
  let g5 := setNode g4 n "volume_reduced" (.num vol_reduced)
  let g6 := setNode g5 n "volume_pct_reduced" (.num (100 * (vol_reduced / vol_in)))
  let g7 := setNode g6 n "volume_treated" (.num vol_treated)
  let g8 := setNode g7 n "volume_pct_treated" (.num (100 * (vol_treated / vol_in)))
  let g9 := setNode g8 n "volume_capture" (.num (vol_treated + vol_reduced))
  setNode g9 n "volume_pct_capture" (.num (100 * ((vol_treated + vol_reduced) / vol_in)))

/-- Source lines 177-266, one tracked load column at one node: accumulate
the incoming load, store load and concentration, push concentration-derived
loads onto the outgoing edges, then determine `load_out`, `vol_out` and
`vol_treated` (outfall nodes bypass the outgoing sums entirely, and so does
a non-positive `load_in`), and write the derived attributes. -/
def processLoadCol (cfg : Config) (n : String) (vol_in : ℚ) (L : String)
    (st : St) : St × Option SolveErr :=
  match sum_edge_attr st.g n L .in_edges none none none with
  | .error er => (st, some er)
  | .ok ls =>
    match numGetD (nodeMap st.g n) L 0 with
    | .error er => (st, some er)
    | .ok nl =>
      let load_in := ls + nl
      let conc_in := safe_divide load_in vol_in
      let g2 := setNode (setNode st.g n L (.num load_in)) n (L ++ "_conc") (.num conc_in)
      if load_in > 0 then
        match updateEdges cfg n L conc_in g2.edges with
        | (es', ws2, some er) => (⟨{ g2 with edges := es' }, st.ws ++ ws2⟩, some er)
        | (es', ws2, none) =>
          let g3 := { g2 with edges := es' }
          if cfg.outfall_flags.any (fun f => strIn f n) then
            (⟨writeLoadResults n L vol_in load_in load_in vol_in 0 g3, st.ws ++ ws2⟩, none)
          else
            match sum_edge_attr g3 n L .out_edges none none none with
            | .error er => (⟨g3, st.ws ++ ws2⟩, some er)
            | .ok lo =>
              match sum_edge_attr g3 n "volume" .out_edges (some "id") none
                  (some cfg.vol_reduced_flags) with
              | .error er => (⟨g3, st.ws ++ ws2⟩, some er)
              | .ok vo =>
                match sum_edge_attr g3 n "volume" .out_edges (some "id")
                    (some cfg.treated_flags) none with
                | .error er => (⟨g3, st.ws ++ ws2⟩, some er)
                | .ok vt =>
                  (⟨writeLoadResults n L vol_in load_in lo vo vt g3, st.ws ++ ws2⟩, none)
      else
        (⟨writeLoadResults n L vol_in load_in load_in vol_in 0 g2, st.ws⟩, none)

/-- Source line 177: the loop over the tracked load columns. -/
def processLoadCols (cfg : Config) (n : String) (vol_in : ℚ) :
    List String → St → St × Option SolveErr
  | [], st => (st, none)
  | L :: rest, st =>
    match processLoadCol cfg n vol_in L st with
    | (st', none) => processLoadCols cfg n vol_in rest st'
    | (st', some er) => (st', some er)

/-- Source lines 156-266, one node of the topological order: accumulate the
inflow volume, overwrite the node's volume attribute with it, store the
expected-volume percent difference (the `_ck_volume` attribute defaulting
to the node's own pre-overwrite source volume), and, when the inflow volume
is non-zero, process every tracked load column. -/
def processNode (cfg : Config) (n : String) (st : St) : St × Option SolveErr :=
  match numGetD (nodeMap st.g n) "volume" 0 with
  | .error er => (st, some er)
  | .ok node_vol =>
    match sum_edge_attr st.g n "volume" .in_edges none none none with
    | .error er => (st, some er)
    | .ok sv =>
      let vol_in := sv + node_vol
      let g1 := setNode st.g n "volume" (.num vol_in)
      match numGetD (nodeMap g1 n) "_ck_volume" node_vol with
      | .error er => (⟨g1, st.ws⟩, some er)
      | .ok check_vol =>
        let vol_pct_diff := safe_divide (check_vol - vol_in) check_vol * 100
        let g2 := setNode g1 n "volume_pct_diff" (.num vol_pct_diff)
        if vol_in ≠ 0 then processLoadCols cfg n vol_in cfg.load_cols ⟨g2, st.ws⟩
        else (⟨g2, st.ws⟩, none)

/-- The traversal loop of `solve`: process the topological order node by
node; an error aborts the traversal, keeping the mutations made so far. -/
def runNodes (cfg : Config) : List String → St → St × Option SolveErr
  | [], st => (st, none)
  | n :: rest, st =>
    match processNode cfg n st with
    | (st', none) => runNodes cfg rest st'
    | (st', some er) => (st', some er)

/-- Outcome of a `solve` call: the graph as mutated by the call, the
overwrite warnings issued, and the error that aborted the call, if any. -/
structure SolveResult where
  graph : Graph
  warnings : List Warning
  error : Option SolveErr
deriving DecidableEq

/-- Source lines 144-275: `SwmmNetwork.solve`.  The topological sort runs
first (eagerly, as in networkx 1.x); a cyclic graph fails there, before any
attribute is touched.  Otherwise the nodes are processed in order. -/
def solve (cfg : Config) (G : Graph) : SolveResult :=
  match topological_sort G with
  | none => ⟨G, [], some .cycle⟩
  | some order =>
    match runNodes cfg order ⟨G, []⟩ with
    | (st, er) => ⟨st.g, st.ws, er⟩

/-- Sum of a numeric edge attribute over an edge list, with absent or
non-numeric values counting 0 (specification-side helper for stating sum
results). -/
def edgeNumSum (es : List Edge) (k : String) : ℚ :=
  (es.map (fun e => match lookupA e.data k with
    | some (.num q) => q
    | _ => 0)).sum

/-- Boolean edge test used to state cycles: some edge goes from `a` to `b`. -/
def hasEdgeB (es : List Edge) (a b : String) : Bool :=
  es.any (fun e => e.src == a && e.dst == b)

/-- A list of nodes is a chain if consecutive entries are joined by edges. -/
def chainOk (es : List Edge) : List String → Bool
  | a :: b :: rest => hasEdgeB es a b && chainOk es (b :: rest)
  | _ => true

/-- The graph contains a directed cycle: a chain of length at least two
whose last node equals its first. -/
def HasCycle (G : Graph) : Prop :=
  ∃ a rest, chainOk G.edges (a :: rest) = true ∧ rest ≠ [] ∧
    (a :: rest).getLast? = some a

/-- Every edge endpoint names an existing node (a `networkx` invariant:
adding an edge adds its endpoints). -/
def edgesClosedB (G : Graph) : Bool :=
  G.edges.all (fun e => (nodeKeys G).contains e.src && (nodeKeys G).contains e.dst)

/-- The default behavioural configuration of `SwmmNetwork.__init__` with
the flag lists kept as parameters. -/
def mkCfg (tf vr of : List String) : Config :=
  { treated := true, load_cols := ["load"], treated_flags := tf,
    vol_reduced_flags := vr, outfall_flags := of }

/-! ### Generic helper lemmas -/

theorem beq_eq_decideEq {α} [BEq α] [LawfulBEq α] [DecidableEq α] (a b : α) :
    (a == b) = decide (a = b) := by
  by_cases h : a = b <;> simp [h]

/-! ### Concrete instances for the counterexamples and failing inputs -/

/-- Subcatchment A (volume 100, load 10) feeding B through a treated link
(identifier `X-TR`, volume 100). -/
def cgC1 : Graph :=
  { nodes := [("A", [("volume", .num 100), ("load", .num 10)]), ("B", [])],
    edges := [⟨"A", "B", [("id", .str "X-TR"), ("volume", .num 100)]⟩] }

/-- The result of running `solve` on `cgC1` with the default flags. -/
def resC1 : SolveResult := solve (mkCfg ["TR"] ["INF", "HU"] ["OF"]) cgC1

/-- Subcatchment A (volume 100, load 10) feeding B through a link carrying
a pre-existing load of 0 (the overwrite-diagnostic failing input). -/
def cgC2 : Graph :=
  { nodes := [("A", [("volume", .num 100), ("load", .num 10)]), ("B", [])],
    edges := [⟨"A", "B", [("id", .str "P1"), ("volume", .num 100), ("load", .num 0)]⟩] }

/-- The result of running `solve` on `cgC2` with the default flags. -/
def resC2 : SolveResult := solve (mkCfg ["TR"] ["INF", "HU"] ["OF"]) cgC2

/-- Subcatchment A (volume 100, load 10) whose single outgoing unflagged
link carries volume 50, less than the inflow volume of 100. -/
def cgC4 : Graph :=
  { nodes := [("A", [("volume", .num 100), ("load", .num 10)]), ("B", [])],
    edges := [⟨"A", "B", [("id", .str "P1"), ("volume", .num 50)]⟩] }

/-- The result of running `solve` on `cgC4` with the default flags. -/
def resC4 : SolveResult := solve (mkCfg ["TR"] ["INF", "HU"] ["OF"]) cgC4

/-- A single isolated outfall node (identity `OF1`, no attributes). -/
def cgC5 : Graph := { nodes := [("OF1", [])], edges := [] }

/-- The result of running `solve` on `cgC5` with the default flags. -/
def resC5 : SolveResult := solve (mkCfg ["TR"] ["INF", "HU"] ["OF"]) cgC5

/-- Subcatchment A (volume 50, load 5) feeding B through a link carrying a
pre-existing load of 0. -/
def cgC6zero : Graph :=
  { nodes := [("A", [("volume", .num 50), ("load", .num 5)]), ("B", [])],
    edges := [⟨"A", "B", [("id", .str "Q-1"), ("volume", .num 50), ("load", .num 0)]⟩] }

/-- Same as `cgC6zero` but with a non-zero pre-existing edge load of 7. -/
def cgC6nz : Graph :=
  { nodes := [("A", [("volume", .num 50), ("load", .num 5)]), ("B", [])],
    edges := [⟨"A", "B", [("id", .str "Q-1"), ("volume", .num 50), ("load", .num 7)]⟩] }

/-- A node B holding both a source volume (100) and an incoming edge
(volume 50), with no expected-volume (`_ck_volume`) attribute anywhere. -/
def cgC7 : Graph :=
  { nodes := [("A", [("volume", .num 50)]), ("B", [("volume", .num 100)])],
    edges := [⟨"A", "B", [("id", .str "P1"), ("volume", .num 50)]⟩] }

/-- The result of running `solve` on `cgC7` with the default flags. -/
def resC7 : SolveResult := solve (mkCfg ["TR"] ["INF", "HU"] ["OF"]) cgC7

/-! ### Counterexample and failing-input theorems for the concrete claims -/

/-- C1 counterexample: on `cgC1` the treated edge's stored load is 3 while
`conc_in` is 1/10 and the edge volume is 100, so the stored load does not
equal `(1 - r) * conc_in * edge_volume` for every removal efficiency
`r ∈ [0, 1]` (at `r = 0` that formula demands 10, not 3): the removal
efficiency is the hard-coded 0.7, not a configurable fraction. -/
theorem C1_counterexample :
    resC1.error = none ∧
    nAttr resC1.graph "A" "load_conc" = some (.num (1 / 10)) ∧
    resC1.graph.edges.map (fun e => lookupA e.data "volume") = [some (.num 100)] ∧
    resC1.graph.edges.map (fun e => lookupA e.data "load") = [some (.num 3)] ∧
    strIn "TR" "X-TR" = true ∧
    ¬ ∀ r : ℚ, 0 ≤ r → r ≤ 1 → (3 : ℚ) = (1 - r) * (1 / 10) * 100 := by
  refine ⟨?_, ?_, ?_, ?_, ?_, ?neg⟩
  case neg =>
    intro h
    have h0 := h 0 le_rfl zero_le_one
    norm_num at h0
  all_goals
    simp [resC1, solve, topological_sort, topoAux, nodeKeys, cgC1, List.find?,
      List.erase, beq_eq_decideEq, runNodes, processNode, processLoadCols,
      processLoadCol, numGetD, nodeMap, nAttr, lookupA, sum_edge_attr,
      sumEdgeAttrAux, edgesOf, List.filter, setNode, setA, safe_divide,
      updateEdges, applyLoadEdge, overwriteDiag, asNum, anyIn, strIn, isSub, isPre,
      writeLoadResults, mkCfg, show ((7:ℚ)/10 < 1) from by norm_num,
      show ¬((10:ℚ)/100 = 0) from by norm_num,
      show ¬((100:ℚ) = 0) from by norm_num,
      show ((0:ℚ) < 10) from by norm_num,
      show ((0:ℚ) < (1 - 7/10) * (10/100) * 100) from by norm_num]
  all_goals norm_num

/-- C2 failing input: `safe_divide` itself returns 0 on a zero denominator,
but on `cgC2` the overwrite-diagnostic path of `solve` (source line 209)
divides by the pre-existing edge load 0 without the guard and the call
aborts with a `ZeroDivisionError` instead of yielding 0. -/
theorem C2_bug :
    (∀ x : ℚ, safe_divide x 0 = 0) ∧ resC2.error = some SolveErr.zeroDiv := by
  constructor
  · intro x; simp [safe_divide]
  · simp [resC2, solve, topological_sort, topoAux, nodeKeys, cgC2, List.find?,
      List.erase, beq_eq_decideEq, runNodes, processNode, processLoadCols,
      processLoadCol, numGetD, nodeMap, nAttr, lookupA, sum_edge_attr,
      sumEdgeAttrAux, edgesOf, List.filter, setNode, setA, safe_divide,
      updateEdges, applyLoadEdge, overwriteDiag, asNum, anyIn, strIn, isSub, isPre,
      writeLoadResults, mkCfg,
      show ¬((100:ℚ) = 0) from by norm_num,
      show ((0:ℚ) < 10) from by norm_num]

/-- C4 counterexample: node A of `cgC4` has non-zero inflow 100, its only
outgoing edge (identifier `P1`, volume 50) matches no treated and no
volume-reduction flag, and A matches no outfall flag, yet `solve` stores
`vol_out = 50 ≠ 100 = vol_in` and `load_out = 5 ≠ 10 = load_in`: without
the outgoing edge volumes summing to the inflow, nothing is conserved. -/
theorem C4_counterexample :
    resC4.error = none ∧
    (strIn "TR" "P1" = false ∧ strIn "INF" "P1" = false ∧
      strIn "HU" "P1" = false ∧ strIn "OF" "A" = false) ∧
    nAttr resC4.graph "A" "volume" = some (.num 100) ∧
    nAttr resC4.graph "A" "volume_out" = some (.num 50) ∧
    nAttr resC4.graph "A" "load" = some (.num 10) ∧
    nAttr resC4.graph "A" "load_out" = some (.num 5) ∧
    ((50 : ℚ) ≠ 100 ∧ (5 : ℚ) ≠ 10) := by
  refine ⟨?_, ⟨by decide, by decide, by decide, by decide⟩, ?_, ?_, ?_, ?_,
    by norm_num, by norm_num⟩
  all_goals
    simp [resC4, solve, topological_sort, topoAux, nodeKeys, cgC4, List.find?,
      List.erase, beq_eq_decideEq, runNodes, processNode, processLoadCols,
      processLoadCol, numGetD, nodeMap, nAttr, lookupA, sum_edge_attr,
      sumEdgeAttrAux, edgesOf, List.filter, setNode, setA, safe_divide,
      updateEdges, applyLoadEdge, overwriteDiag, asNum, anyIn, strIn, isSub, isPre,
      writeLoadResults, mkCfg,
      show ¬((100:ℚ) = 0) from by norm_num,
      show ¬((50:ℚ) = 0) from by norm_num,
      show ((0:ℚ) < 10) from by norm_num,
      show ((0:ℚ) < 10/100 * 50) from by norm_num]
  all_goals norm_num

/-- C5 counterexample: the isolated outfall node `OF1` of `cgC5` (inflow
volume 0) finishes `solve` without error, but no `load_out`, `volume_out`
or `volume_treated` attribute is stored at all (load processing is skipped
when the inflow volume is 0), refuting the claim for outfall nodes that are
not processed with non-zero inflow. -/
theorem C5_counterexample :
    resC5.error = none ∧
    strIn "OF" "OF1" = true ∧
    nAttr resC5.graph "OF1" "volume" = some (.num 0) ∧
    nAttr resC5.graph "OF1" "load_out" = none ∧
    nAttr resC5.graph "OF1" "volume_out" = none ∧
    nAttr resC5.graph "OF1" "volume_treated" = none := by
  refine ⟨?_, by decide, ?_, ?_, ?_, ?_⟩
  all_goals
    simp [resC5, solve, topological_sort, topoAux, nodeKeys, cgC5, List.find?,
      List.erase, beq_eq_decideEq, runNodes, processNode, processLoadCols,
      processLoadCol, numGetD, nodeMap, nAttr, lookupA, sum_edge_attr,
      sumEdgeAttrAux, edgesOf, List.filter, setNode, setA, safe_divide,
      updateEdges, applyLoadEdge, overwriteDiag, asNum, anyIn, strIn, isSub, isPre,
      writeLoadResults, mkCfg]

/-- C6 failing input: with a non-zero pre-existing edge load (`cgC6nz`) the
overwrite is indeed surfaced as a warning identifying the edge (`Q-1`) and
the load column, the load is overwritten, and `solve` completes; but with a
pre-existing load of 0 (`cgC6zero`) the overwrite diagnostic itself divides
by that load and `solve` aborts with a `ZeroDivisionError`, so an edge-load
overwrite can abort the solve. -/
theorem C6_bug :
    (solve (mkCfg ["TR"] ["INF", "HU"] ["OF"]) cgC6zero).error = some SolveErr.zeroDiv ∧
    (solve (mkCfg ["TR"] ["INF", "HU"] ["OF"]) cgC6nz).error = none ∧
    (solve (mkCfg ["TR"] ["INF", "HU"] ["OF"]) cgC6nz).warnings =
      [⟨.str "Q-1", "load"⟩] ∧
    (solve (mkCfg ["TR"] ["INF", "HU"] ["OF"]) cgC6nz).graph.edges.map
      (fun e => lookupA e.data "load") = [some (.num 5)] := by
  refine ⟨?_, ?_, ?_, ?_⟩
  all_goals
    simp [solve, topological_sort, topoAux, nodeKeys, cgC6zero, cgC6nz, List.find?,
      List.erase, beq_eq_decideEq, runNodes, processNode, processLoadCols,
      processLoadCol, numGetD, nodeMap, nAttr, lookupA, sum_edge_attr,
      sumEdgeAttrAux, edgesOf, List.filter, setNode, setA, safe_divide,
      updateEdges, applyLoadEdge, overwriteDiag, asNum, anyIn, strIn, isSub, isPre,
      writeLoadResults, mkCfg,
      show ¬((50:ℚ) = 0) from by norm_num,
      show ((0:ℚ) < 5) from by norm_num,
      show ¬((7:ℚ) = 0) from by norm_num,
      show ((0:ℚ) < 5/50 * 50) from by norm_num]

/-- C7 counterexample: node B of `cgC7` has no `_ck_volume` attribute, yet
the stored percent difference is -50, not 0, because the absent expected
value defaults to the node's pre-overwrite source volume (100), while the
inflow volume is 150. -/
theorem C7_counterexample :
    resC7.error = none ∧
    nAttr cgC7 "B" "_ck_volume" = none ∧
    nAttr resC7.graph "B" "volume" = some (.num 150) ∧
    nAttr resC7.graph "B" "volume_pct_diff" = some (.num (-50)) ∧
    ((-50 : ℚ) ≠ 0) := by
  refine ⟨?_, by simp [nAttr, nodeMap, lookupA, cgC7], ?_, ?_, by norm_num⟩
  all_goals
    simp [resC7, solve, topological_sort, topoAux, nodeKeys, cgC7, List.find?,
      List.erase, beq_eq_decideEq, runNodes, processNode, processLoadCols,
      processLoadCol, numGetD, nodeMap, nAttr, lookupA, sum_edge_attr,
      sumEdgeAttrAux, edgesOf, List.filter, setNode, setA, safe_divide,
      updateEdges, applyLoadEdge, overwriteDiag, asNum, anyIn, strIn, isSub, isPre,
      writeLoadResults, mkCfg,
      show ¬((50:ℚ) = 0) from by norm_num,
      show ¬((100:ℚ) = 0) from by norm_num,
      show ¬((150:ℚ) = 0) from by norm_num,
      show ((50:ℚ) + 100 = 150) from by norm_num]
  all_goals norm_num

/-! ### Lemmas about `sum_edge_attr` -/

theorem anyIn_error_eq {flags : List String} {v : AttrVal} {er : SolveErr}
    (h : anyIn flags v = .error er) : er = .attrError := by
  unfold anyIn at h
  split at h
  · exact absurd h (by simp)
  · split at h
    · exact absurd h (by simp)
    · simpa using h.symm

theorem numGetD_error_eq {m : AttrMap} {k : String} {d : ℚ} {er : SolveErr}
    (h : numGetD m k d = .error er) : er = .attrError := by
  unfold numGetD at h
  split at h <;> simp_all

theorem anyIn_ok_true_str {flags : List String} {v : AttrVal}
    (h : anyIn flags v = .ok true) :
    ∃ s, v = .str s ∧ flags ≠ [] ∧ flags.any (fun f => strIn f s) = true := by
  unfold anyIn at h
  split at h
  · exact absurd h (by simp)
  · split at h
    · next s =>
      refine ⟨s, rfl, by simp_all, by simpa using h⟩
    · exact absurd h (by simp)

/-- One step of the summation loop on an edge whose filter value is
present: the loop either aborts with an attribute error or continues on the
remaining edges with some accumulator. -/
theorem sumAux_cons_some {attr fk : String} {incl excl : Option (List String)}
    {e : Edge} {rest : List Edge} {v : ℚ} {kv : AttrVal}
    (hl : lookupA e.data fk = some kv) :
    sumEdgeAttrAux attr (some fk) incl excl (e :: rest) v = .error .attrError ∨
    ∃ v', sumEdgeAttrAux attr (some fk) incl excl (e :: rest) v =
      sumEdgeAttrAux attr (some fk) incl excl rest v' := by
  rcases incl with _ | iflags
  · rcases excl with _ | eflags
    · cases hg : numGetD e.data attr 0 with
      | error er =>
        exact Or.inl (by simp [sumEdgeAttrAux, hl, hg, numGetD_error_eq hg])
      | ok q => exact Or.inr ⟨v + q, by simp [sumEdgeAttrAux, hl, hg]⟩
    · cases ha : anyIn eflags kv with
      | error er =>
        exact Or.inl (by simp [sumEdgeAttrAux, hl, ha, anyIn_error_eq ha])
      | ok b2 =>
        cases b2 with
        | true => exact Or.inr ⟨v, by simp [sumEdgeAttrAux, hl, ha]⟩
        | false =>
          cases hg : numGetD e.data attr 0 with
          | error er =>
            exact Or.inl (by simp [sumEdgeAttrAux, hl, ha, hg, numGetD_error_eq hg])
          | ok q => exact Or.inr ⟨v + q, by simp [sumEdgeAttrAux, hl, ha, hg]⟩
  · cases ha : anyIn iflags kv with
    | error er =>
      exact Or.inl (by simp [sumEdgeAttrAux, hl, ha, anyIn_error_eq ha])
    | ok b =>
      cases b with
      | false => exact Or.inr ⟨v, by simp [sumEdgeAttrAux, hl, ha]⟩
      | true =>
        rcases excl with _ | eflags
        · cases hg : numGetD e.data attr 0 with
          | error er =>
            exact Or.inl (by simp [sumEdgeAttrAux, hl, ha, hg, numGetD_error_eq hg])
          | ok q => exact Or.inr ⟨v + q, by simp [sumEdgeAttrAux, hl, ha, hg]⟩
        · cases ha2 : anyIn eflags kv with
          | error er =>
            exact Or.inl (by simp [sumEdgeAttrAux, hl, ha, ha2, anyIn_error_eq ha2])
          | ok b2 =>
            cases b2 with
            | true => exact Or.inr ⟨v, by simp [sumEdgeAttrAux, hl, ha, ha2]⟩
            | false =>
              cases hg : numGetD e.data attr 0 with
              | error er =>
                exact Or.inl
                  (by simp [sumEdgeAttrAux, hl, ha, ha2, hg, numGetD_error_eq hg])
              | ok q =>
                exact Or.inr ⟨v + q, by simp [sumEdgeAttrAux, hl, ha, ha2, hg]⟩

/-- With a filter key, the summation aborts whenever any selected edge
lacks the filter attribute, whatever the flag lists are. -/
theorem sumAux_missing_fk {attr fk : String} {incl excl : Option (List String)} :
    ∀ (es : List Edge) (v : ℚ), (∃ e ∈ es, lookupA e.data fk = none) →
      sumEdgeAttrAux attr (some fk) incl excl es v = .error .attrError := by
  intro es
  induction es with
  | nil => intro v h; simp at h
  | cons e rest ih =>
    intro v h
    rcases h with ⟨e', he', hnone⟩
    rcases List.mem_cons.mp he' with rfl | hmem
    · simp only [sumEdgeAttrAux, hnone]
    · cases hl : lookupA e.data fk with
      | none => simp only [sumEdgeAttrAux, hl]
      | some kv =>
        rcases @sumAux_cons_some attr fk incl excl e rest v kv hl with
          herr | ⟨v', hstep⟩
        · exact herr
        · rw [hstep]; exact ih v' ⟨e', hmem, hnone⟩

/-- C10: with a `filter_key`, the filter attribute is read from every
selected edge before any flag list is consulted, so the call fails
(`KeyError`) whenever a selected edge lacks that attribute, including the
degenerate case where both flag lists are `None`. -/
theorem C10_filter_key_read (G : Graph) (n attr fk : String) (m : EdgeMethod)
    (incl excl : Option (List String))
    (h : ∃ e ∈ edgesOf G n m, lookupA e.data fk = none) :
    sum_edge_attr G n attr m (some fk) incl excl = .error .attrError := by
  unfold sum_edge_attr
  exact sumAux_missing_fk (edgesOf G n m) 0 h

/-- A two-node graph whose only edge lacks the `id` attribute. -/
def cgC10 : Graph :=
  { nodes := [("A", []), ("B", [])],
    edges := [⟨"A", "B", [("volume", .num 3)]⟩] }

/-- C10 witness: on `cgC10`, summing `volume` over the out-edges of `A`
with `filter_key='id'` and no flag lists fails with the attribute error. -/
theorem C10_witness :
    sum_edge_attr cgC10 "A" "volume" .out_edges (some "id") none none =
      .error .attrError :=
  C10_filter_key_read cgC10 "A" "volume" "id" .out_edges none none
    ⟨⟨"A", "B", [("volume", .num 3)]⟩, by decide, by decide⟩

/-- C8: the aggregation returns 0 when no edges are selected, and, with
both an include and an exclude flag list supplied, an edge whose filter
value matches an exclude flag never contributes: dropping such an edge from
the selection leaves the summation unchanged (even if the same value also
matches an include flag). -/
theorem C8_sum_edge_attr :
    (∀ (G : Graph) (n attr : String) (m : EdgeMethod) (fk : Option String)
        (incl excl : Option (List String)),
        edgesOf G n m = [] →
        sum_edge_attr G n attr m fk incl excl = .ok 0) ∧
    (∀ (attr fk : String) (iflags eflags : List String) (v : ℚ)
        (l2 : List Edge) (e : Edge) (kv : AttrVal) (l1 : List Edge),
        lookupA e.data fk = some kv → anyIn eflags kv = .ok true →
        sumEdgeAttrAux attr (some fk) (some iflags) (some eflags) (l1 ++ e :: l2) v =
          sumEdgeAttrAux attr (some fk) (some iflags) (some eflags) (l1 ++ l2) v) := by
  constructor
  · intro G n attr m fk incl excl h
    unfold sum_edge_attr
    rw [h]
    rfl
  · intro attr fk iflags eflags v l2 e kv l1
    induction l1 generalizing v with
    | nil =>
      intro hl he
      obtain ⟨s, rfl, hne, hany⟩ := anyIn_ok_true_str he
      simp only [List.nil_append, sumEdgeAttrAux, hl]
      have hi : ∃ b, anyIn iflags (.str s) = .ok b := by
        unfold anyIn
        rcases iflags with _ | ⟨f, fs⟩
        · exact ⟨false, rfl⟩
        · exact ⟨_, rfl⟩
      obtain ⟨b, hb⟩ := hi
      rw [hb]
      cases b with
      | false => simp
      | true => simp [he]
    | cons a l1 ih =>
      intro hl he
      simp only [List.cons_append, sumEdgeAttrAux]
      cases hla : lookupA a.data fk with
      | none => rfl
      | some kva =>
        cases hia : anyIn iflags kva with
        | error er => simp [hia]
        | ok b =>
          cases b with
          | false => simp [hia, ih v hl he]
          | true =>
            cases hea : anyIn eflags kva with
            | error er => simp [hia, hea]
            | ok b2 =>
              cases b2 with
              | true => simp [hia, hea, ih v hl he]
              | false =>
                cases hg : numGetD a.data attr 0 with
                | error er => simp [hia, hea, hg]
                | ok q => simp [hia, hea, hg, ih (v + q) hl he]

/-- A graph with no out-edges at `A` and one incoming edge whose identifier
`X-TR` matches both the include flag `TR` and the exclude flag `X`. -/
def cgC8 : Graph :=
  { nodes := [("A", []), ("B", [])],
    edges := [⟨"B", "A", [("id", .str "X-TR"), ("volume", .num 4)]⟩] }

/-- C8 witness: on `cgC8`, the out-edge sum at `A` is 0, and dropping the
exclude-matching edge `X-TR` from a selection leaves the filtered
summation unchanged although `TR` is an include match. -/
theorem C8_witness :
    sum_edge_attr cgC8 "A" "volume" .out_edges (some "id") (some ["TR"]) (some ["X"]) =
      .ok 0 ∧
    sumEdgeAttrAux "volume" (some "id") (some ["TR"]) (some ["X"])
        ([⟨"B", "A", [("id", .str "X-TR"), ("volume", .num 4)]⟩] : List Edge) 0 =
      sumEdgeAttrAux "volume" (some "id") (some ["TR"]) (some ["X"]) ([] : List Edge) 0 :=
  ⟨C8_sum_edge_attr.1 cgC8 "A" "volume" .out_edges (some "id") (some ["TR"])
      (some ["X"]) (by decide),
    C8_sum_edge_attr.2 "volume" "id" ["TR"] ["X"] 0 []
      ⟨"B", "A", [("id", .str "X-TR"), ("volume", .num 4)]⟩ (.str "X-TR") []
      (by decide) (by rfl)⟩

/-! ### Cycle detection: a cyclic graph makes the eager sort fail -/

theorem chain_tail_pred {es : List Edge} :
    ∀ (a : String) (rest : List String), chainOk es (a :: rest) = true →
      ∀ b ∈ rest, ∃ c ∈ a :: rest, hasEdgeB es c b = true := by
  intro a rest
  induction rest generalizing a with
  | nil => intro _ b hb; simp at hb
  | cons b' rest' ih =>
    intro hchain b hb
    have h1 : hasEdgeB es a b' = true ∧ chainOk es (b' :: rest') = true := by
      simpa [chainOk, Bool.and_eq_true] using hchain
    rcases List.mem_cons.mp hb with rfl | hb'
    · exact ⟨a, List.mem_cons_self _ _, h1.1⟩
    · obtain ⟨c, hc, he⟩ := ih b' h1.2 b hb'
      exact ⟨c, List.mem_cons_of_mem _ hc, he⟩

/-- Each node of a closed chain (cycle) has a predecessor inside it. -/
theorem cycle_pred {es : List Edge} {a : String} {rest : List String}
    (hchain : chainOk es (a :: rest) = true) (hne : rest ≠ [])
    (hlast : (a :: rest).getLast? = some a) :
    ∀ b ∈ a :: rest, ∃ c ∈ a :: rest, hasEdgeB es c b = true := by
  intro b hb
  rcases List.mem_cons.mp hb with rfl | hbr
  · rcases rest with _ | ⟨r, rest'⟩
    · exact absurd rfl hne
    · have hlast' : (r :: rest').getLast? = some b := by
        simpa [List.getLast?_cons_cons] using hlast
      have hmem : b ∈ r :: rest' := by
        rcases @List.mem_getLast?_eq_getLast String (r :: rest') b
            (by simp [Option.mem_def, hlast']) with ⟨hne', heq⟩
        rw [heq]
        exact List.getLast_mem hne'
      exact chain_tail_pred b (r :: rest') hchain b hmem
  · exact chain_tail_pred a rest hchain b hbr

/-- Kahn's algorithm never terminates successfully while a set of nodes in
which every member has an in-set predecessor remains among the pending
nodes: no member can ever be picked, so the fuel runs out. -/
theorem topoAux_stuck {es : List Edge} {C : List String} (hCne : C ≠ [])
    (hpred : ∀ c ∈ C, ∃ c' ∈ C, hasEdgeB es c' c = true) :
    ∀ (fuel : Nat) (ns : List String), (∀ c ∈ C, c ∈ ns) →
      topoAux es fuel ns = none := by
  have hnsne : ∀ ns : List String, (∀ c ∈ C, c ∈ ns) → ¬ ns = [] := by
    intro ns hsub h
    rcases C with _ | ⟨c, C'⟩
    · exact hCne rfl
    · have := hsub c (by simp)
      simp [h] at this
  intro fuel
  induction fuel with
  | zero =>
    intro ns hsub
    simp [topoAux, hnsne ns hsub]
  | succ fuel ih =>
    intro ns hsub
    simp only [topoAux, if_neg (hnsne ns hsub)]
    cases hf : ns.find?
        (fun n => !(es.any (fun e => ns.contains e.src && e.dst == n))) with
    | none => rfl
    | some n =>
      have hp := List.find?_some hf
      have hnotC : n ∉ C := by
        intro hnC
        obtain ⟨c', hc', he⟩ := hpred n hnC
        have hc'ns := hsub c' hc'
        rw [hasEdgeB, List.any_eq_true] at he
        obtain ⟨e, hee, hprop⟩ := he
        have h1 : e.src = c' ∧ e.dst = n := by
          simpa [Bool.and_eq_true] using hprop
        rw [Bool.not_eq_true'] at hp
        rw [List.any_eq_false] at hp
        apply hp e hee
        simp [Bool.and_eq_true, h1.1, h1.2, List.contains, hc'ns]
      have hsub' : ∀ c ∈ C, c ∈ ns.erase n := fun c hc =>
        (List.mem_erase_of_ne (fun (h : c = n) => hnotC (h ▸ hc))).mpr (hsub c hc)
      simp [ih (ns.erase n) hsub']

/-- A cyclic graph whose edge endpoints are all nodes defeats the sort. -/
theorem topological_sort_none_of_cycle (G : Graph)
    (hclosed : edgesClosedB G = true) (hcyc : HasCycle G) :
    topological_sort G = none := by
  obtain ⟨a, rest, hchain, hne, hlast⟩ := hcyc
  apply @topoAux_stuck G.edges (a :: rest) (by simp)
    (cycle_pred hchain hne hlast)
  intro c hc
  obtain ⟨c', hc', he⟩ := cycle_pred hchain hne hlast c hc
  rw [hasEdgeB, List.any_eq_true] at he
  obtain ⟨e, hee, hprop⟩ := he
  have h1 : e.src = c' ∧ e.dst = c := by
    simpa [Bool.and_eq_true] using hprop
  rw [edgesClosedB, List.all_eq_true] at hclosed
  have h2 := hclosed e hee
  rw [Bool.and_eq_true] at h2
  have h3 := h2.2
  rw [h1.2] at h3
  rw [List.contains] at h3
  exact List.mem_of_elem_eq_true h3

/-- C3: on a graph containing a cycle (with edge endpoints among the graph
nodes, as networkx guarantees), `solve` fails with the topological-sort
precondition error before any node or edge attribute has been mutated: the
returned graph is exactly the input graph. -/
theorem C3_cycle_aborts_unmutated (cfg : Config) (G : Graph)
    (hclosed : edgesClosedB G = true) (hcyc : HasCycle G) :
    solve cfg G = ⟨G, [], some .cycle⟩ := by
  unfold solve
  rw [topological_sort_none_of_cycle G hclosed hcyc]

/-- A two-node cyclic graph. -/
def cgC3 : Graph :=
  { nodes := [("A", [("volume", .num 1)]), ("B", [])],
    edges := [⟨"A", "B", []⟩, ⟨"B", "A", []⟩] }

/-- C3 witness: on the concrete cyclic graph `cgC3`, `solve` returns the
cycle error with the graph unchanged. -/
theorem C3_witness :
    solve (mkCfg ["TR"] ["INF", "HU"] ["OF"]) cgC3 = ⟨cgC3, [], some .cycle⟩ :=
  C3_cycle_aborts_unmutated (mkCfg ["TR"] ["INF", "HU"] ["OF"]) cgC3 (by decide)
    ⟨"A", ["B", "A"], by decide, by decide, by decide⟩

/-! ### Dictionary and graph update lemmas -/

theorem lookupA_setA_self {α : Type} (m : List (String × α)) (k : String) (v : α) :
    lookupA (setA m k v) k = some v := by
  induction m with
  | nil => simp [setA, lookupA]
  | cons p rest ih =>
    obtain ⟨k', v'⟩ := p
    by_cases h : k' = k
    · simp [setA, lookupA, h]
    · simp [setA, lookupA, h, ih]

theorem lookupA_setA_ne {α : Type} (m : List (String × α)) {k k' : String}
    (v : α) (h : k' ≠ k) : lookupA (setA m k v) k' = lookupA m k' := by
  induction m with
  | nil => simp [setA, lookupA, Ne.symm h]
  | cons p rest ih =>
    obtain ⟨k0, v0⟩ := p
    by_cases h0 : k0 = k
    · subst h0
      simp [setA, lookupA, Ne.symm h]
    · simp only [setA, if_neg h0, lookupA]
      by_cases h1 : k0 = k'
      · simp [h1]
      · simp [h1, ih]

theorem setA_setA {α : Type} (m : List (String × α)) (k : String) (v w : α) :
    setA (setA m k v) k w = setA m k w := by
  induction m with
  | nil => simp [setA]
  | cons p rest ih =>
    obtain ⟨k0, v0⟩ := p
    by_cases h : k0 = k
    · simp [setA, h]
    · simp [setA, h, ih]

theorem keys_setA {α : Type} (m : List (String × α)) (k : String) (v : α)
    (h : k ∈ m.map Prod.fst) : (setA m k v).map Prod.fst = m.map Prod.fst := by
  induction m with
  | nil => simp at h
  | cons p rest ih =>
    obtain ⟨k0, v0⟩ := p
    rw [List.map_cons] at h
    by_cases h0 : k0 = k
    · simp [setA, h0]
    · have hr : k ∈ rest.map Prod.fst := by
        rcases List.mem_cons.mp h with h1 | h1
        · exact absurd h1.symm h0
        · exact h1
      simp [setA, h0, ih hr]

theorem setNode_edges (G : Graph) (n k : String) (v : AttrVal) :
    (setNode G n k v).edges = G.edges := rfl

theorem nodeKeys_setNode (G : Graph) (n k : String) (v : AttrVal)
    (h : n ∈ nodeKeys G) : nodeKeys (setNode G n k v) = nodeKeys G := by
  simp [nodeKeys, setNode, keys_setA G.nodes n _ h]

theorem nodeMap_setNode_self (G : Graph) (n k : String) (v : AttrVal) :
    nodeMap (setNode G n k v) n = setA (nodeMap G n) k v := by
  simp [nodeMap, setNode, lookupA_setA_self]

theorem nodeMap_setNode_ne (G : Graph) {n m : String} (k : String) (v : AttrVal)
    (h : m ≠ n) : nodeMap (setNode G n k v) m = nodeMap G m := by
  simp [nodeMap, setNode, lookupA_setA_ne _ _ h]

/-- Reading an attribute after one node-attribute write. -/
theorem nAttr_setNode (G : Graph) (n k : String) (v : AttrVal) (m k' : String) :
    nAttr (setNode G n k v) m k' =
      if m = n then (if k' = k then some v else nAttr G m k')
      else nAttr G m k' := by
  by_cases hm : m = n
  · subst hm
    rw [nAttr, nodeMap_setNode_self]
    by_cases hk : k' = k
    · subst hk; simp [lookupA_setA_self]
    · simp [hk, lookupA_setA_ne _ _ hk, nAttr]
  · simp [hm, nAttr, nodeMap_setNode_ne _ _ _ hm]

/-- Per-edge frame of the load write: source and destination are kept and
only the load column `L` of the data dict can change. -/
def edgeFrame (n L : String) (e0 e1 : Edge) : Prop :=
  e1.src = e0.src ∧ e1.dst = e0.dst ∧
  (∀ k, k ≠ L → lookupA e1.data k = lookupA e0.data k) ∧
  (e0.src ≠ n → e1 = e0)

theorem applyLoadEdge_frame_ok {cfg : Config} {L : String} {conc : ℚ}
    {e e' : Edge} {ws : List Warning}
    (h : applyLoadEdge cfg L conc e = .ok (e', ws)) :
    e'.src = e.src ∧ e'.dst = e.dst ∧
      ∀ k, k ≠ L → lookupA e'.data k = lookupA e.data k := by
  simp only [applyLoadEdge] at h
  split at h
  · simp at h
  · split at h
    · simp at h
    · split at h
      · split at h
        · simp only [Except.ok.injEq, Prod.mk.injEq] at h
          obtain ⟨h1, h2⟩ := h
          subst h1
          exact ⟨rfl, rfl, fun k hk => lookupA_setA_ne _ _ hk⟩
        · split at h
          · simp at h
          · simp at h
          · split at h
            · simp only [Except.ok.injEq, Prod.mk.injEq] at h
              obtain ⟨h1, h2⟩ := h
              subst h1
              refine ⟨rfl, rfl, fun k hk => ?_⟩
              show lookupA (setA (setA e.data L _) L _) k = _
              rw [setA_setA, lookupA_setA_ne _ _ hk]
            · simp only [Except.ok.injEq, Prod.mk.injEq] at h
              obtain ⟨h1, h2⟩ := h
              subst h1
              exact ⟨rfl, rfl, fun k hk => lookupA_setA_ne _ _ hk⟩
      · simp only [Except.ok.injEq, Prod.mk.injEq] at h
        obtain ⟨h1, h2⟩ := h
        subst h1
        exact ⟨rfl, rfl, fun k hk => lookupA_setA_ne _ _ hk⟩

theorem applyLoadEdge_frame_error {cfg : Config} {L : String} {conc : ℚ}
    {e e' : Edge} {ws : List Warning} {er : SolveErr}
    (h : applyLoadEdge cfg L conc e = .error (e', ws, er)) :
    e'.src = e.src ∧ e'.dst = e.dst ∧
      ∀ k, k ≠ L → lookupA e'.data k = lookupA e.data k := by
  simp only [applyLoadEdge] at h
  split at h
  · simp only [Except.error.injEq, Prod.mk.injEq] at h
    obtain ⟨h1, h2⟩ := h
    subst h1
    exact ⟨rfl, rfl, fun k hk => rfl⟩
  · split at h
    · simp only [Except.error.injEq, Prod.mk.injEq] at h
      obtain ⟨h1, h2⟩ := h
      subst h1
      exact ⟨rfl, rfl, fun k hk => rfl⟩
    · split at h
      · split at h
        · simp at h
        · split at h
          · simp only [Except.error.injEq, Prod.mk.injEq] at h
            obtain ⟨h1, h2⟩ := h
            subst h1
            exact ⟨rfl, rfl, fun k hk => lookupA_setA_ne _ _ hk⟩
          · simp only [Except.error.injEq, Prod.mk.injEq] at h
            obtain ⟨h1, h2⟩ := h
            subst h1
            exact ⟨rfl, rfl, fun k hk => lookupA_setA_ne _ _ hk⟩
          · split at h
            · simp at h
            · simp at h
      · simp at h

/-- Frame of the out-edge update loop, for any outcome: edge for edge, the
sources and destinations are kept, only the `L` attribute can change, and
edges not leaving `n` are untouched. -/
theorem updateEdges_frame {cfg : Config} {n L : String} {conc : ℚ} :
    ∀ {es es' : List Edge} {ws : List Warning} {er : Option SolveErr},
      updateEdges cfg n L conc es = (es', ws, er) →
      List.Forall₂ (edgeFrame n L) es es' := by
  intro es
  induction es with
  | nil =>
    intro es' ws er h
    simp only [updateEdges] at h
    rcases h with ⟨rfl, rfl, rfl⟩
    exact List.Forall₂.nil
  | cons e rest ih =>
    intro es' ws er h
    simp only [updateEdges] at h
    by_cases hsrc : e.src = n
    · rw [if_pos hsrc] at h
      cases ha : applyLoadEdge cfg L conc e with
      | ok pr =>
        obtain ⟨e', ws0⟩ := pr
        rw [ha] at h
        cases hr : updateEdges cfg n L conc rest with
        | mk rest' pr2 =>
          obtain ⟨ws', er'⟩ := pr2
          rw [hr] at h
          simp only at h
          rcases h with ⟨rfl, rfl, rfl⟩
          have hf := applyLoadEdge_frame_ok ha
          exact List.Forall₂.cons
            ⟨hf.1, hf.2.1, hf.2.2, fun hn => absurd hsrc hn⟩ (ih hr)
      | error tr =>
        obtain ⟨e', ws0, er0⟩ := tr
        rw [ha] at h
        simp only at h
        rcases h with ⟨rfl, rfl, rfl⟩
        have hf := applyLoadEdge_frame_error ha
        refine List.Forall₂.cons
          ⟨hf.1, hf.2.1, hf.2.2, fun hn => absurd hsrc hn⟩ ?_
        exact List.forall₂_same.mpr
          (fun e2 _ => ⟨rfl, rfl, fun k hk => rfl, fun _ => rfl⟩)
    · rw [if_neg hsrc] at h
      cases hr : updateEdges cfg n L conc rest with
      | mk rest' pr2 =>
        obtain ⟨ws', er'⟩ := pr2
        rw [hr] at h
        simp only at h
        rcases h with ⟨rfl, rfl, rfl⟩
        exact List.Forall₂.cons
          ⟨rfl, rfl, fun k hk => rfl, fun _ => rfl⟩ (ih hr)

/-- Successful out-edge update: every edge leaving `n` is the result of a
successful `applyLoadEdge`, every other edge is untouched. -/
theorem updateEdges_none {cfg : Config} {n L : String} {conc : ℚ} :
    ∀ {es es' : List Edge} {ws : List Warning},
      updateEdges cfg n L conc es = (es', ws, none) →
      List.Forall₂ (fun e0 e1 =>
        (e0.src ≠ n ∧ e1 = e0) ∨
        (e0.src = n ∧ ∃ ws0, applyLoadEdge cfg L conc e0 = .ok (e1, ws0))) es es' := by
  intro es
  induction es with
  | nil =>
    intro es' ws h
    simp only [updateEdges] at h
    rcases h with ⟨rfl, rfl, rfl⟩
    exact List.Forall₂.nil
  | cons e rest ih =>
    intro es' ws h
    simp only [updateEdges] at h
    by_cases hsrc : e.src = n
    · rw [if_pos hsrc] at h
      cases ha : applyLoadEdge cfg L conc e with
      | ok pr =>
        obtain ⟨e', ws0⟩ := pr
        rw [ha] at h
        cases hr : updateEdges cfg n L conc rest with
        | mk rest' pr2 =>
          obtain ⟨ws', er'⟩ := pr2
          rw [hr] at h
          simp only at h
          rcases h with ⟨rfl, rfl, rfl⟩
          exact List.Forall₂.cons (Or.inr ⟨hsrc, ws0, ha⟩) (ih hr)
      | error tr =>
        obtain ⟨e', ws0, er0⟩ := tr
        rw [ha] at h
        simp only at h
        rcases h with ⟨rfl, rfl, h3⟩
    · rw [if_neg hsrc] at h
      cases hr : updateEdges cfg n L conc rest with
      | mk rest' pr2 =>
        obtain ⟨ws', er'⟩ := pr2
        rw [hr] at h
        simp only at h
        rcases h with ⟨rfl, rfl, rfl⟩
        exact List.Forall₂.cons (Or.inl ⟨hsrc, rfl⟩) (ih hr)

/-! ### Composition helpers for edge-list relations -/

theorem forall₂_compose {α : Type} {R S T : α → α → Prop}
    (hc : ∀ a b c, R a b → S b c → T a c) :
    ∀ {l1 l2 l3 : List α}, List.Forall₂ R l1 l2 → List.Forall₂ S l2 l3 →
      List.Forall₂ T l1 l3 := by
  intro l1 l2 l3 h12
  induction h12 generalizing l3 with
  | nil =>
    intro h23
    cases h23
    exact List.Forall₂.nil
  | cons hab h12' ih =>
    intro h23
    cases h23 with
    | cons hbc h23' => exact List.Forall₂.cons (hc _ _ _ hab hbc) (ih h23')

theorem forall₂_filter {α : Type} {R : α → α → Prop} {p q : α → Bool}
    (hpq : ∀ a b, R a b → (p a = q b)) :
    ∀ {l1 l2 : List α}, List.Forall₂ R l1 l2 →
      List.Forall₂ R (l1.filter p) (l2.filter q) := by
  intro l1 l2 h
  induction h with
  | nil => exact List.Forall₂.nil
  | cons hab h' ih =>
    rename_i a b _ _
    by_cases hp : p a = true
    · have hq : q b = true := by rw [← hpq a b hab]; exact hp
      simpa [List.filter_cons, hp, hq] using List.Forall₂.cons hab ih
    · have hq : ¬ q b = true := by rw [← hpq a b hab]; exact hp
      simpa [List.filter_cons, hp, hq] using ih

theorem forall₂_refl_edge {P : Edge → Edge → Prop} (hrefl : ∀ a, P a a) :
    ∀ l : List Edge, List.Forall₂ P l l := by
  intro l
  induction l with
  | nil => exact List.Forall₂.nil
  | cons a l ih => exact List.Forall₂.cons (hrefl a) ih

/-- Unfiltered attribute sums agree on edge lists that agree on the summed
attribute. -/
theorem sumAux_congr_none {attr : String} :
    ∀ {l1 l2 : List Edge},
      List.Forall₂ (fun a b => lookupA b.data attr = lookupA a.data attr) l1 l2 →
      ∀ v, sumEdgeAttrAux attr none none none l1 v =
        sumEdgeAttrAux attr none none none l2 v := by
  intro l1 l2 h
  induction h with
  | nil => intro v; rfl
  | cons hab h' ih =>
    intro v
    rename_i a b _ _
    simp only [sumEdgeAttrAux, numGetD, hab]
    cases lookupA a.data attr with
    | none => exact ih (v + 0)
    | some av =>
      cases av with
      | num q => exact ih (v + q)
      | str s => rfl

/-! ### Key-set and attribute lemmas for the write chain -/

theorem keys_setA_if {α : Type} (m : List (String × α)) (k : String) (v : α) :
    (setA m k v).map Prod.fst =
      if k ∈ m.map Prod.fst then m.map Prod.fst else m.map Prod.fst ++ [k] := by
  induction m with
  | nil => simp [setA]
  | cons p rest ih =>
    obtain ⟨k0, v0⟩ := p
    by_cases h0 : k0 = k
    · simp [setA, h0]
    · simp only [setA, if_neg h0, List.map_cons]
      rw [ih]
      by_cases hk : k ∈ rest.map Prod.fst
      · simp [hk, Ne.symm h0]
      · simp [hk, Ne.symm h0]

theorem nodeKeys_setNode_if (G : Graph) (n k : String) (v : AttrVal) :
    nodeKeys (setNode G n k v) =
      if n ∈ nodeKeys G then nodeKeys G else nodeKeys G ++ [n] := by
  simp [nodeKeys, setNode, keys_setA_if]

theorem mem_nodeKeys_setNode (G : Graph) (n k : String) (v : AttrVal)
    (h : n ∈ nodeKeys G) : n ∈ nodeKeys (setNode G n k v) := by
  rw [nodeKeys_setNode_if, if_pos h]; exact h

theorem writeLoadResults_edges (n L : String)
    (vi li lo vo vt : ℚ) (g : Graph) :
    (writeLoadResults n L vi li lo vo vt g).edges = g.edges := by
  simp only [writeLoadResults]
  split <;> rfl

theorem writeLoadResults_keys (n L : String) (vi li lo vo vt : ℚ) (g : Graph)
    (h : n ∈ nodeKeys g) :
    nodeKeys (writeLoadResults n L vi li lo vo vt g) = nodeKeys g := by
  simp only [writeLoadResults]
  split <;> simp [nodeKeys_setNode_if, h]

theorem writeLoadResults_nodeMap_ne (n L : String) (vi li lo vo vt : ℚ)
    (g : Graph) {m : String} (hm : m ≠ n) :
    nodeMap (writeLoadResults n L vi li lo vo vt g) m = nodeMap g m := by
  simp only [writeLoadResults]
  split <;> simp [nodeMap_setNode_ne _ _ _ hm]

theorem writeLoadResults_load_out (n : String) (vi li lo vo vt : ℚ) (g : Graph) :
    nAttr (writeLoadResults n "load" vi li lo vo vt g) n "load_out" =
      some (.num lo) := by
  simp only [writeLoadResults]
  split <;> simp [nAttr_setNode]

theorem writeLoadResults_volume_out (n : String) (vi li lo vo vt : ℚ) (g : Graph) :
    nAttr (writeLoadResults n "load" vi li lo vo vt g) n "volume_out" =
      some (.num vo) := by
  simp only [writeLoadResults]
  split <;> simp [nAttr_setNode]

theorem writeLoadResults_volume_treated (n : String) (vi li lo vo vt : ℚ) (g : Graph) :
    nAttr (writeLoadResults n "load" vi li lo vo vt g) n "volume_treated" =
      some (.num vt) := by
  simp only [writeLoadResults]
  split <;> simp [nAttr_setNode]

theorem writeLoadResults_other (n : String) (vi li lo vo vt : ℚ) (g : Graph)
    (k : String) (h1 : k ≠ "load_out") (h2 : k ≠ "load_reduced")
    (h3 : k ≠ "load_pct_reduced") (h4 : k ≠ "volume_out")
    (h5 : k ≠ "volume_reduced") (h6 : k ≠ "volume_pct_reduced")
    (h7 : k ≠ "volume_treated") (h8 : k ≠ "volume_pct_treated")
    (h9 : k ≠ "volume_capture") (h10 : k ≠ "volume_pct_capture") :
    nAttr (writeLoadResults n "load" vi li lo vo vt g) n k = nAttr g n k := by
  simp only [writeLoadResults]
  split <;> simp [nAttr_setNode, h1, h2, h3, h4, h5, h6, h7, h8, h9, h10]

theorem nodeKeys_setNode2 (G : Graph) (n k1 : String) (v1 : AttrVal)
    (k2 : String) (v2 : AttrVal) (h : n ∈ nodeKeys G) :
    nodeKeys (setNode (setNode G n k1 v1) n k2 v2) = nodeKeys G := by
  rw [nodeKeys_setNode _ _ _ _ (mem_nodeKeys_setNode _ _ _ _ h),
    nodeKeys_setNode _ _ _ _ h]

theorem mem_nodeKeys_setNode2 (G : Graph) (n k1 : String) (v1 : AttrVal)
    (k2 : String) (v2 : AttrVal) (h : n ∈ nodeKeys G) :
    n ∈ nodeKeys (setNode (setNode G n k1 v1) n k2 v2) := by
  rw [nodeKeys_setNode2 _ _ _ _ _ _ h]; exact h

theorem nodeMap_setNode2_ne (G : Graph) (n k1 : String) (v1 : AttrVal)
    (k2 : String) (v2 : AttrVal) {m : String} (hm : m ≠ n) :
    nodeMap (setNode (setNode G n k1 v1) n k2 v2) m = nodeMap G m := by
  rw [nodeMap_setNode_ne _ _ _ hm, nodeMap_setNode_ne _ _ _ hm]

/-- Frame of one load-column pass, whatever the outcome: node keys are
kept, other nodes' attribute dicts are kept, and every edge satisfies the
per-edge frame for the column `L`. -/
theorem processLoadCol_frame {cfg : Config} {n : String} {vol_in : ℚ}
    {L : String} {st st' : St} {er : Option SolveErr}
    (h : processLoadCol cfg n vol_in L st = (st', er)) :
    (n ∈ nodeKeys st.g → nodeKeys st'.g = nodeKeys st.g) ∧
    (∀ m, m ≠ n → nodeMap st'.g m = nodeMap st.g m) ∧
    List.Forall₂ (edgeFrame n L) st.g.edges st'.g.edges := by
  obtain ⟨g, ws⟩ := st
  simp only [processLoadCol] at h
  have hrefl : List.Forall₂ (edgeFrame n L) g.edges g.edges :=
    forall₂_refl_edge (fun a => ⟨rfl, rfl, fun k hk => rfl, fun hh => rfl⟩) g.edges
  cases hls : sum_edge_attr g n L .in_edges none none none with
  | error e1 =>
    rw [hls] at h
    simp only [Prod.mk.injEq] at h
    obtain ⟨h1, -⟩ := h
    subst h1
    exact ⟨fun _ => rfl, fun m hm => rfl, hrefl⟩
  | ok ls =>
    rw [hls] at h
    cases hnl : numGetD (nodeMap g n) L 0 with
    | error e1 =>
      rw [hnl] at h
      simp only [Prod.mk.injEq] at h
      obtain ⟨h1, -⟩ := h
      subst h1
      exact ⟨fun _ => rfl, fun m hm => rfl, hrefl⟩
    | ok nl =>
      rw [hnl] at h
      simp only at h
      by_cases hpos : ls + nl > 0
      · rw [if_pos hpos] at h
        split at h
        · next es' ws2 er2 hue =>
          simp only [Prod.mk.injEq] at h
          obtain ⟨h1, -⟩ := h
          subst h1
          dsimp only
          have hrel := updateEdges_frame hue
          rw [setNode_edges, setNode_edges] at hrel
          refine ⟨fun hmem => ?_, fun m hm => ?_, hrel⟩
          · exact nodeKeys_setNode2 _ _ _ _ _ _ hmem
          · exact nodeMap_setNode2_ne _ _ _ _ _ _ hm
        · next es' ws2 hue =>
          have hrel := updateEdges_frame hue
          rw [setNode_edges, setNode_edges] at hrel
          split at h
          · simp only [Prod.mk.injEq] at h
            obtain ⟨h1, -⟩ := h
            subst h1
            dsimp only
            refine ⟨fun hmem => ?_, fun m hm => ?_, ?_⟩
            · rw [writeLoadResults_keys]
              · exact nodeKeys_setNode2 _ _ _ _ _ _ hmem
              · exact mem_nodeKeys_setNode2 _ _ _ _ _ _ hmem
            · rw [writeLoadResults_nodeMap_ne]
              · exact nodeMap_setNode2_ne _ _ _ _ _ _ hm
              · exact hm
            · rw [writeLoadResults_edges]
              exact hrel
          · cases hlo : sum_edge_attr
                { setNode (setNode g n L (.num (ls + nl))) n (L ++ "_conc")
                    (.num (safe_divide (ls + nl) vol_in)) with edges := es' }
                n L .out_edges none none none with
            | error e1 =>
              rw [hlo] at h
              simp only [Prod.mk.injEq] at h
              obtain ⟨h1, -⟩ := h
              subst h1
              dsimp only
              refine ⟨fun hmem => ?_, fun m hm => ?_, hrel⟩
              · exact nodeKeys_setNode2 _ _ _ _ _ _ hmem
              · exact nodeMap_setNode2_ne _ _ _ _ _ _ hm
            | ok lo =>
              rw [hlo] at h
              cases hvo : sum_edge_attr
                  { setNode (setNode g n L (.num (ls + nl))) n (L ++ "_conc")
                      (.num (safe_divide (ls + nl) vol_in)) with edges := es' }
                  n "volume" .out_edges (some "id") none
                  (some cfg.vol_reduced_flags) with
              | error e1 =>
                rw [hvo] at h
                simp only [Prod.mk.injEq] at h
                obtain ⟨h1, -⟩ := h
                subst h1
                dsimp only
                refine ⟨fun hmem => ?_, fun m hm => ?_, hrel⟩
                · exact nodeKeys_setNode2 _ _ _ _ _ _ hmem
                · exact nodeMap_setNode2_ne _ _ _ _ _ _ hm
              | ok vo =>
                rw [hvo] at h
                cases hvt : sum_edge_attr
                    { setNode (setNode g n L (.num (ls + nl))) n (L ++ "_conc")
                        (.num (safe_divide (ls + nl) vol_in)) with edges := es' }
                    n "volume" .out_edges (some "id") (some cfg.treated_flags)
                    none with
                | error e1 =>
                  rw [hvt] at h
                  simp only [Prod.mk.injEq] at h
                  obtain ⟨h1, -⟩ := h
                  subst h1
                  dsimp only
                  refine ⟨fun hmem => ?_, fun m hm => ?_, hrel⟩
                  · exact nodeKeys_setNode2 _ _ _ _ _ _ hmem
                  · exact nodeMap_setNode2_ne _ _ _ _ _ _ hm
                | ok vt =>
                  rw [hvt] at h
                  simp only [Prod.mk.injEq] at h
                  obtain ⟨h1, -⟩ := h
                  subst h1
                  dsimp only
                  refine ⟨fun hmem => ?_, fun m hm => ?_, ?_⟩
                  · rw [writeLoadResults_keys]
                    · exact nodeKeys_setNode2 _ _ _ _ _ _ hmem
                    · exact mem_nodeKeys_setNode2 _ _ _ _ _ _ hmem
                  · rw [writeLoadResults_nodeMap_ne]
                    · exact nodeMap_setNode2_ne _ _ _ _ _ _ hm
                    · exact hm
                  · rw [writeLoadResults_edges]
                    exact hrel
      · rw [if_neg hpos] at h
        simp only [Prod.mk.injEq] at h
        obtain ⟨h1, -⟩ := h
        subst h1
        dsimp only
        refine ⟨fun hmem => ?_, fun m hm => ?_, ?_⟩
        · rw [writeLoadResults_keys]
          · exact nodeKeys_setNode2 _ _ _ _ _ _ hmem
          · exact mem_nodeKeys_setNode2 _ _ _ _ _ _ hmem
        · rw [writeLoadResults_nodeMap_ne]
          · exact nodeMap_setNode2_ne _ _ _ _ _ _ hm
          · exact hm
        · rw [writeLoadResults_edges, setNode_edges, setNode_edges]
          exact hrefl

/-- Successful load-column pass, fully characterized: the incoming sums
succeed, and the final state is the write chain applied to either the
unchanged edges (non-positive load), or the updated edges with the
outfall shortcut or the three outgoing sums. -/
theorem processLoadCol_ok {cfg : Config} {n : String} {vol_in : ℚ} {L : String}
    {g : Graph} {ws : List Warning} {st' : St}
    (h : processLoadCol cfg n vol_in L ⟨g, ws⟩ = (st', none)) :
    ∃ ls nl,
      sum_edge_attr g n L .in_edges none none none = .ok ls ∧
      numGetD (nodeMap g n) L 0 = .ok nl ∧
      ∃ g2, g2 = setNode (setNode g n L (.num (ls + nl))) n (L ++ "_conc")
          (.num (safe_divide (ls + nl) vol_in)) ∧
        (((¬ ls + nl > 0) ∧
            st' = ⟨writeLoadResults n L vol_in (ls + nl) (ls + nl) vol_in 0 g2, ws⟩) ∨
          (ls + nl > 0 ∧ ∃ es' ws2,
            updateEdges cfg n L (safe_divide (ls + nl) vol_in) g2.edges =
              (es', ws2, none) ∧
            ∃ g3, g3 = { g2 with edges := es' } ∧
              ((cfg.outfall_flags.any (fun f => strIn f n) = true ∧
                  st' = ⟨writeLoadResults n L vol_in (ls + nl) (ls + nl) vol_in 0 g3,
                    ws ++ ws2⟩) ∨
                (cfg.outfall_flags.any (fun f => strIn f n) = false ∧
                  ∃ lo vo vt,
                    sum_edge_attr g3 n L .out_edges none none none = .ok lo ∧
                    sum_edge_attr g3 n "volume" .out_edges (some "id") none
                      (some cfg.vol_reduced_flags) = .ok vo ∧
                    sum_edge_attr g3 n "volume" .out_edges (some "id")
                      (some cfg.treated_flags) none = .ok vt ∧
                    st' = ⟨writeLoadResults n L vol_in (ls + nl) lo vo vt g3,
                      ws ++ ws2⟩)))) := by
  simp only [processLoadCol] at h
  cases hls : sum_edge_attr g n L .in_edges none none none with
  | error e1 => rw [hls] at h; simp at h
  | ok ls =>
    rw [hls] at h
    cases hnl : numGetD (nodeMap g n) L 0 with
    | error e1 => rw [hnl] at h; simp at h
    | ok nl =>
      rw [hnl] at h
      simp only at h
      refine ⟨ls, nl, rfl, rfl, _, rfl, ?_⟩
      by_cases hpos : ls + nl > 0
      · rw [if_pos hpos] at h
        split at h
        · next es' ws2 er2 hue => simp at h
        · next es' ws2 hue =>
          refine Or.inr ⟨hpos, es', ws2, hue, _, rfl, ?_⟩
          split at h
          · next hout =>
            simp only [Prod.mk.injEq] at h
            exact Or.inl ⟨hout, h.1.symm⟩
          · next hout =>
            cases hlo : sum_edge_attr
                { setNode (setNode g n L (.num (ls + nl))) n (L ++ "_conc")
                    (.num (safe_divide (ls + nl) vol_in)) with edges := es' }
                n L .out_edges none none none with
            | error e1 => rw [hlo] at h; simp at h
            | ok lo =>
              rw [hlo] at h
              cases hvo : sum_edge_attr
                  { setNode (setNode g n L (.num (ls + nl))) n (L ++ "_conc")
                      (.num (safe_divide (ls + nl) vol_in)) with edges := es' }
                  n "volume" .out_edges (some "id") none
                  (some cfg.vol_reduced_flags) with
              | error e1 => rw [hvo] at h; simp at h
              | ok vo =>
                rw [hvo] at h
                cases hvt : sum_edge_attr
                    { setNode (setNode g n L (.num (ls + nl))) n (L ++ "_conc")
                        (.num (safe_divide (ls + nl) vol_in)) with edges := es' }
                    n "volume" .out_edges (some "id") (some cfg.treated_flags)
                    none with
                | error e1 => rw [hvt] at h; simp at h
                | ok vt =>
                  rw [hvt] at h
                  simp only [Prod.mk.injEq] at h
                  exact Or.inr ⟨by simpa using hout, lo, vo, vt, rfl, rfl, rfl,
                    h.1.symm⟩
      · rw [if_neg hpos] at h
        simp only [Prod.mk.injEq] at h
        exact Or.inl ⟨hpos, h.1.symm⟩

/-- Per-edge frame over a set of load columns. -/
def edgeFrameCols (n : String) (cols : List String) (e0 e1 : Edge) : Prop :=
  e1.src = e0.src ∧ e1.dst = e0.dst ∧
  (∀ k, k ∉ cols → lookupA e1.data k = lookupA e0.data k) ∧
  (e0.src ≠ n → e1 = e0)

theorem edgeFrame_weaken {n L : String} {cols : List String} (hL : L ∈ cols)
    {e0 e1 : Edge} (h : edgeFrame n L e0 e1) : edgeFrameCols n cols e0 e1 :=
  ⟨h.1, h.2.1, fun k hk => h.2.2.1 k (fun he => hk (he ▸ hL)), h.2.2.2⟩

theorem edgeFrameCols_refl (n : String) (cols : List String) (e : Edge) :
    edgeFrameCols n cols e e := ⟨rfl, rfl, fun _ _ => rfl, fun _ => rfl⟩

theorem edgeFrameCols_weaken {n : String} {cols cols' : List String}
    (hsub : ∀ k, k ∈ cols → k ∈ cols') {e0 e1 : Edge}
    (h : edgeFrameCols n cols e0 e1) : edgeFrameCols n cols' e0 e1 :=
  ⟨h.1, h.2.1, fun k hk => h.2.2.1 k (fun he => hk (hsub k he)), h.2.2.2⟩

theorem edgeFrameCols_comp {n : String} {cols : List String} {a b c : Edge}
    (h1 : edgeFrameCols n cols a b) (h2 : edgeFrameCols n cols b c) :
    edgeFrameCols n cols a c := by
  refine ⟨h2.1.trans h1.1, h2.2.1.trans h1.2.1,
    fun k hk => (h2.2.2.1 k hk).trans (h1.2.2.1 k hk), fun hs => ?_⟩
  have hb := h1.2.2.2 hs
  have : b.src ≠ n := by rw [hb]; exact hs
  rw [h2.2.2.2 this, hb]

/-- Frame of the loop over all load columns. -/
theorem processLoadCols_frame {cfg : Config} {n : String} {vol_in : ℚ} :
    ∀ {cols : List String} {st st' : St} {er : Option SolveErr},
      processLoadCols cfg n vol_in cols st = (st', er) →
      (n ∈ nodeKeys st.g → nodeKeys st'.g = nodeKeys st.g) ∧
      (∀ m, m ≠ n → nodeMap st'.g m = nodeMap st.g m) ∧
      List.Forall₂ (edgeFrameCols n cols) st.g.edges st'.g.edges := by
  intro cols
  induction cols with
  | nil =>
    intro st st' er h
    simp only [processLoadCols] at h
    rcases h with ⟨rfl, rfl⟩
    exact ⟨fun _ => rfl, fun m hm => rfl,
      forall₂_refl_edge (edgeFrameCols_refl n []) _⟩
  | cons L cols ih =>
    intro st st' er h
    simp only [processLoadCols] at h
    cases hp : processLoadCol cfg n vol_in L st with
    | mk st1 er1 =>
      rw [hp] at h
      have hf1 := processLoadCol_frame hp
      cases er1 with
      | some e1 =>
        simp only at h
        rcases h with ⟨rfl, rfl⟩
        refine ⟨hf1.1, hf1.2.1, ?_⟩
        exact List.Forall₂.imp (fun a b hab =>
          edgeFrame_weaken (List.mem_cons_self _ _) hab) hf1.2.2
      | none =>
        simp only at h
        have hf2 := ih h
        refine ⟨?_, ?_, ?_⟩
        · intro hmem
          rw [hf2.1 (by rw [hf1.1 hmem]; exact hmem), hf1.1 hmem]
        · intro m hm
          rw [hf2.2.1 m hm, hf1.2.1 m hm]
        · exact @forall₂_compose Edge (edgeFrameCols n (L :: cols))
            (edgeFrameCols n (L :: cols)) (edgeFrameCols n (L :: cols))
            (fun a b c hab hbc => edgeFrameCols_comp hab hbc) _ _ _
            (List.Forall₂.imp (fun a b hab =>
              edgeFrame_weaken (List.mem_cons_self _ _) hab) hf1.2.2)
            (List.Forall₂.imp (fun a b hab =>
              edgeFrameCols_weaken (fun k hk => List.mem_cons_of_mem _ hk) hab)
              hf2.2.2)

/-- Frame of one full node step: node keys kept, other nodes kept, edges
changed only at the tracked load columns and only when leaving `n`. -/
theorem processNode_frame {cfg : Config} {n : String} {st st' : St}
    {er : Option SolveErr} (h : processNode cfg n st = (st', er)) :
    (n ∈ nodeKeys st.g → nodeKeys st'.g = nodeKeys st.g) ∧
    (∀ m, m ≠ n → nodeMap st'.g m = nodeMap st.g m) ∧
    List.Forall₂ (edgeFrameCols n cfg.load_cols) st.g.edges st'.g.edges := by
  obtain ⟨g, ws⟩ := st
  simp only [processNode] at h
  have hrefl := forall₂_refl_edge (edgeFrameCols_refl n cfg.load_cols) g.edges
  cases hnv : numGetD (nodeMap g n) "volume" 0 with
  | error e1 =>
    rw [hnv] at h
    simp only [Prod.mk.injEq] at h
    obtain ⟨h1, -⟩ := h
    subst h1
    exact ⟨fun _ => rfl, fun m hm => rfl, hrefl⟩
  | ok nv =>
    rw [hnv] at h
    cases hsv : sum_edge_attr g n "volume" .in_edges none none none with
    | error e1 =>
      rw [hsv] at h
      simp only [Prod.mk.injEq] at h
      obtain ⟨h1, -⟩ := h
      subst h1
      exact ⟨fun _ => rfl, fun m hm => rfl, hrefl⟩
    | ok sv =>
      rw [hsv] at h
      simp only at h
      cases hck : numGetD (nodeMap (setNode g n "volume" (.num (sv + nv))) n)
          "_ck_volume" nv with
      | error e1 =>
        rw [hck] at h
        simp only [Prod.mk.injEq] at h
        obtain ⟨h1, -⟩ := h
        subst h1
        dsimp only
        refine ⟨fun hmem => nodeKeys_setNode _ _ _ _ hmem,
          fun m hm => nodeMap_setNode_ne _ _ _ hm, hrefl⟩
      | ok ck =>
        rw [hck] at h
        simp only at h
        by_cases hz : sv + nv ≠ 0
        · rw [if_pos hz] at h
          have hf := processLoadCols_frame h
          refine ⟨?_, ?_, ?_⟩
          · intro hmem
            have hmem2 := mem_nodeKeys_setNode2 g n "volume" (.num (sv + nv))
              "volume_pct_diff"
              (.num (safe_divide (ck - (sv + nv)) ck * 100)) hmem
            rw [hf.1 hmem2]
            exact nodeKeys_setNode2 _ _ _ _ _ _ hmem
          · intro m hm
            rw [hf.2.1 m hm]
            exact nodeMap_setNode2_ne _ _ _ _ _ _ hm
          · exact hf.2.2
        · rw [if_neg hz] at h
          simp only [Prod.mk.injEq] at h
          obtain ⟨h1, -⟩ := h
          subst h1
          dsimp only
          refine ⟨fun hmem => nodeKeys_setNode2 _ _ _ _ _ _ hmem,
            fun m hm => nodeMap_setNode2_ne _ _ _ _ _ _ hm, hrefl⟩

/-- Successful node step, characterized. -/
theorem processNode_ok {cfg : Config} {n : String} {g : Graph}
    {ws : List Warning} {st' : St}
    (h : processNode cfg n ⟨g, ws⟩ = (st', none)) :
    ∃ nv sv, numGetD (nodeMap g n) "volume" 0 = .ok nv ∧
      sum_edge_attr g n "volume" .in_edges none none none = .ok sv ∧
      ∃ ck, numGetD (nodeMap (setNode g n "volume" (.num (sv + nv))) n)
          "_ck_volume" nv = .ok ck ∧
        ∃ g2, g2 = setNode (setNode g n "volume" (.num (sv + nv))) n
            "volume_pct_diff" (.num (safe_divide (ck - (sv + nv)) ck * 100)) ∧
          ((sv + nv = 0 ∧ st' = ⟨g2, ws⟩) ∨
            (¬ sv + nv = 0 ∧
              processLoadCols cfg n (sv + nv) cfg.load_cols ⟨g2, ws⟩ =
                (st', none))) := by
  simp only [processNode] at h
  cases hnv : numGetD (nodeMap g n) "volume" 0 with
  | error e1 => rw [hnv] at h; simp at h
  | ok nv =>
    rw [hnv] at h
    cases hsv : sum_edge_attr g n "volume" .in_edges none none none with
    | error e1 => rw [hsv] at h; simp at h
    | ok sv =>
      rw [hsv] at h
      simp only at h
      cases hck : numGetD (nodeMap (setNode g n "volume" (.num (sv + nv))) n)
          "_ck_volume" nv with
      | error e1 => rw [hck] at h; simp at h
      | ok ck =>
        rw [hck] at h
        simp only at h
        refine ⟨nv, sv, rfl, rfl, ck, hck, _, rfl, ?_⟩
        by_cases hz : sv + nv ≠ 0
        · rw [if_pos hz] at h
          exact Or.inr ⟨hz, h⟩
        · rw [if_neg hz] at h
          simp only [Prod.mk.injEq] at h
          push_neg at hz
          exact Or.inl ⟨hz, h.1.symm⟩

/-- A single tracked load column reduces the loop to one pass. -/
theorem processLoadCols_one {cfg : Config} {n : String} {vol_in : ℚ}
    {L : String} {st st' : St}
    (h : processLoadCols cfg n vol_in [L] st = (st', none)) :
    processLoadCol cfg n vol_in L st = (st', none) := by
  simp only [processLoadCols] at h
  cases hp : processLoadCol cfg n vol_in L st with
  | mk st1 er1 =>
    rw [hp] at h
    cases er1 with
    | none =>
      simp only [processLoadCols] at h
      rcases h with ⟨rfl, -⟩
      rfl
    | some e1 => simp at h

/-- Frame of the whole traversal over a node list. -/
theorem runNodes_frame {cfg : Config} :
    ∀ {l : List String} {st st' : St} {er : Option SolveErr},
      runNodes cfg l st = (st', er) →
      ((∀ x ∈ l, x ∈ nodeKeys st.g) → nodeKeys st'.g = nodeKeys st.g) ∧
      (∀ m, m ∉ l → nodeMap st'.g m = nodeMap st.g m) ∧
      List.Forall₂ (fun e0 e1 => e1.src = e0.src ∧ e1.dst = e0.dst ∧
        (∀ k, k ∉ cfg.load_cols → lookupA e1.data k = lookupA e0.data k) ∧
        (e0.src ∉ l → e1 = e0)) st.g.edges st'.g.edges := by
  intro l
  induction l with
  | nil =>
    intro st st' er h
    simp only [runNodes] at h
    rcases h with ⟨rfl, rfl⟩
    refine ⟨fun _ => rfl, fun m hm => rfl, ?_⟩
    exact forall₂_refl_edge (fun a => ⟨rfl, rfl, fun k hk => rfl, fun hh => rfl⟩) _
  | cons n rest ih =>
    intro st st' er h
    simp only [runNodes] at h
    cases hp : processNode cfg n st with
    | mk st1 er1 =>
      rw [hp] at h
      have hf1 := processNode_frame hp
      cases er1 with
      | some e1 =>
        simp only at h
        rcases h with ⟨rfl, rfl⟩
        refine ⟨fun hall => hf1.1 (hall n (by simp)), fun m hm => hf1.2.1 m
          (fun he => hm (by simp [he])), ?_⟩
        exact List.Forall₂.imp (fun a b hab =>
          ⟨hab.1, hab.2.1, hab.2.2.1, fun hs => hab.2.2.2
            (fun he => hs (by simp [he]))⟩) hf1.2.2
      | none =>
        simp only at h
        have hf2 := ih h
        refine ⟨?_, ?_, ?_⟩
        · intro hall
          have hmem : n ∈ nodeKeys st.g := hall n (by simp)
          have hk1 := hf1.1 hmem
          rw [hf2.1 (fun x hx => by rw [hk1]; exact hall x (by simp [hx])), hk1]
        · intro m hm
          rw [hf2.2.1 m (fun he => hm (by simp [he])),
            hf1.2.1 m (fun he => hm (by simp [he]))]
        · refine forall₂_compose (fun a b c hab hbc => ?_) hf1.2.2 hf2.2.2
          refine ⟨hbc.1.trans hab.1, hbc.2.1.trans hab.2.1,
            fun k hk => (hbc.2.2.1 k hk).trans (hab.2.2.1 k hk), fun hs => ?_⟩
          have hb := hab.2.2.2 (fun he => hs (by simp [he]))
          have hsrc : b.src ∉ rest := by rw [hb]; intro hc; exact hs (by simp [hc])
          rw [hbc.2.2.2 hsrc, hb]

/-- Splitting a successful traversal at one node of the order. -/
theorem runNodes_split {cfg : Config} :
    ∀ {l1 : List String} {n : String} {l2 : List String} {st st' : St},
      runNodes cfg (l1 ++ n :: l2) st = (st', none) →
      ∃ stA stB, runNodes cfg l1 st = (stA, none) ∧
        processNode cfg n stA = (stB, none) ∧
        runNodes cfg l2 stB = (st', none) := by
  intro l1
  induction l1 with
  | nil =>
    intro n l2 st st' h
    rw [List.nil_append] at h
    simp only [runNodes] at h
    cases hp : processNode cfg n st with
    | mk st1 er1 =>
      rw [hp] at h
      cases er1 with
      | none => exact ⟨st, st1, rfl, hp, by simpa using h⟩
      | some e1 => simp at h
  | cons a l1 ih =>
    intro n l2 st st' h
    rw [List.cons_append] at h
    simp only [runNodes] at h
    cases hp : processNode cfg a st with
    | mk st1 er1 =>
      rw [hp] at h
      cases er1 with
      | none =>
        simp only at h
        obtain ⟨stA, stB, h1, h2, h3⟩ := ih h
        refine ⟨stA, stB, ?_, h2, h3⟩
        simp only [runNodes, hp]
        exact h1
      | some e1 => simp at h

/-- A successful fuelled Kahn sort is a permutation of its input nodes. -/
theorem topoAux_perm {es : List Edge} :
    ∀ {fuel : Nat} {ns l : List String}, topoAux es fuel ns = some l →
      l.Perm ns := by
  intro fuel
  induction fuel with
  | zero =>
    intro ns l h
    simp only [topoAux] at h
    split at h
    · next hns =>
      subst hns
      simp only [Option.some.injEq] at h
      subst h
      exact List.Perm.refl []
    · simp at h
  | succ fuel ih =>
    intro ns l h
    simp only [topoAux] at h
    split at h
    · next hns =>
      subst hns
      simp only [Option.some.injEq] at h
      subst h
      exact List.Perm.refl []
    · next hns =>
      split at h
      · simp at h
      · next n hfind =>
        split at h
        · simp at h
        · next rest hrec =>
          simp only [Option.some.injEq] at h
          subst h
          have hmem : n ∈ ns := List.mem_of_find?_eq_some hfind
          exact (List.Perm.cons n (ih hrec)).trans
            (List.perm_cons_erase hmem).symm

theorem topological_sort_perm {G : Graph} {order : List String}
    (h : topological_sort G = some order) : order.Perm (nodeKeys G) := by
  unfold topological_sort at h
  exact topoAux_perm h

/-- Whatever `solve` does, node keys are kept and edges keep their sources,
destinations, and all attributes outside the tracked load columns. -/
theorem solve_frame (cfg : Config) (G : Graph) :
    nodeKeys (solve cfg G).graph = nodeKeys G ∧
    List.Forall₂ (fun e0 e1 => e1.src = e0.src ∧ e1.dst = e0.dst ∧
      (∀ k, k ∉ cfg.load_cols → lookupA e1.data k = lookupA e0.data k))
      G.edges (solve cfg G).graph.edges := by
  cases ht : topological_sort G with
  | none =>
    simp only [solve, ht]
    exact ⟨trivial, forall₂_refl_edge (fun a => ⟨rfl, rfl, fun _ _ => rfl⟩) _⟩
  | some order =>
    cases hr : runNodes cfg order ⟨G, []⟩ with
    | mk st er =>
      simp only [solve, ht, hr]
      have hperm := topological_sort_perm ht
      have hf := runNodes_frame hr
      refine ⟨hf.1 (fun x hx => hperm.subset hx), ?_⟩
      exact List.Forall₂.imp (fun a b hab => ⟨hab.1, hab.2.1, hab.2.2.1⟩) hf.2.2

/-- Unfiltered sums are stable under the solve edge frame. -/
theorem sum_edge_attr_eq_of_frame {g g' : Graph} {n attr : String}
    {meth : EdgeMethod}
    (hrel : List.Forall₂ (fun e0 e1 => e1.src = e0.src ∧ e1.dst = e0.dst ∧
      lookupA e1.data attr = lookupA e0.data attr) g.edges g'.edges) :
    sum_edge_attr g' n attr meth none none none =
      sum_edge_attr g n attr meth none none none := by
  unfold sum_edge_attr
  have hrel2 : List.Forall₂ (fun e0 e1 => e1.src = e0.src ∧ e1.dst = e0.dst ∧
      lookupA e1.data attr = lookupA e0.data attr)
      (edgesOf g n meth) (edgesOf g' n meth) := by
    cases meth with
    | in_edges =>
      exact forall₂_filter (fun a b hab => by
        simp only [beq_eq_decideEq, hab.2.1]) hrel
    | out_edges =>
      exact forall₂_filter (fun a b hab => by
        simp only [beq_eq_decideEq, hab.1]) hrel
    | edges =>
      exact forall₂_filter (fun a b hab => by
        simp only [beq_eq_decideEq, hab.1]) hrel
  exact (sumAux_congr_none
    (List.Forall₂.imp (fun a b hab => hab.2.2) hrel2) 0).symm

/-- The node volume attribute is untouched by one load-column pass. -/
theorem processLoadCol_ok_volume {cfg : Config} {n : String} {vol_in : ℚ}
    {g : Graph} {ws : List Warning} {st' : St}
    (h : processLoadCol cfg n vol_in "load" ⟨g, ws⟩ = (st', none)) :
    nAttr st'.g n "volume" = nAttr g n "volume" := by
  obtain ⟨ls, nl, -, -, g2, hg2, hcase⟩ := processLoadCol_ok h
  have hg2v : nAttr g2 n "volume" = nAttr g n "volume" := by
    subst hg2
    simp [nAttr_setNode]
  have hwlr : ∀ (li lo vo vt : ℚ) (gg : Graph),
      nAttr (writeLoadResults n "load" vol_in li lo vo vt gg) n "volume" =
        nAttr gg n "volume" := by
    intro li lo vo vt gg
    exact writeLoadResults_other n vol_in li lo vo vt gg "volume"
      (by decide) (by decide) (by decide) (by decide) (by decide) (by decide)
      (by decide) (by decide) (by decide) (by decide)
  rcases hcase with ⟨-, hst⟩ | ⟨-, es', ws2, -, g3, hg3, hinner⟩
  · rw [hst]
    exact (hwlr _ _ _ _ _).trans hg2v
  · have hg3v : nAttr g3 n "volume" = nAttr g2 n "volume" := by
      subst hg3; rfl
    rcases hinner with ⟨-, hst⟩ | ⟨-, lo, vo, vt, -, -, -, hst⟩
    · rw [hst]
      exact ((hwlr _ _ _ _ _).trans hg3v).trans hg2v
    · rw [hst]
      exact ((hwlr _ _ _ _ _).trans hg3v).trans hg2v

/-- The volume attribute stored by one successful node step equals the
incoming-edge volume sum plus the node's own pre-step volume value. -/
theorem processNode_ok_volume {cfg : Config} {n : String} {g : Graph}
    {ws : List Warning} {st' : St} (hL : cfg.load_cols = ["load"])
    (h : processNode cfg n ⟨g, ws⟩ = (st', none)) :
    ∃ nv sv, numGetD (nodeMap g n) "volume" 0 = .ok nv ∧
      sum_edge_attr g n "volume" .in_edges none none none = .ok sv ∧
      nAttr st'.g n "volume" = some (.num (sv + nv)) := by
  obtain ⟨nv, sv, hnv, hsv, ck, hck, g2, hg2, hcase⟩ := processNode_ok h
  have hg2v : nAttr g2 n "volume" = some (.num (sv + nv)) := by
    subst hg2
    simp [nAttr_setNode]
  rcases hcase with ⟨hz, hst⟩ | ⟨hz, hrun⟩
  · rw [hst]
    exact ⟨nv, sv, hnv, hsv, hg2v⟩
  · rw [hL] at hrun
    have hone := processLoadCols_one hrun
    exact ⟨nv, sv, hnv, hsv, (processLoadCol_ok_volume hone).trans hg2v⟩

/-- After a successful `solve`, each node's stored volume attribute equals
its incoming-edge volume sum plus its own previous volume value, both read
on the input graph. -/
theorem solve_volume_value {cfg : Config} {G : Graph}
    (hL : cfg.load_cols = ["load"]) (hnd : (nodeKeys G).Nodup) {n : String}
    (hn : n ∈ nodeKeys G) (hok : (solve cfg G).error = none) :
    ∃ sv nv, sum_edge_attr G n "volume" .in_edges none none none = .ok sv ∧
      numGetD (nodeMap G n) "volume" 0 = .ok nv ∧
      nAttr (solve cfg G).graph n "volume" = some (.num (sv + nv)) := by
  cases ht : topological_sort G with
  | none => simp [solve, ht] at hok
  | some order =>
    cases hr : runNodes cfg order ⟨G, []⟩ with
    | mk st er =>
      simp only [solve, ht, hr] at hok ⊢
      subst hok
      have hperm := topological_sort_perm ht
      have hordnd : order.Nodup := (List.Perm.nodup_iff hperm).mpr hnd
      have hnord : n ∈ order := hperm.mem_iff.mpr hn
      obtain ⟨l1, l2, horder⟩ := List.append_of_mem hnord
      subst horder
      have hnl1 : n ∉ l1 := by
        rw [List.nodup_append] at hordnd
        intro hc
        exact hordnd.2.2 hc (by simp)
      have hnl2 : n ∉ l2 := by
        rw [List.nodup_append] at hordnd
        exact (List.nodup_cons.mp hordnd.2.1).1
      obtain ⟨stA, stB, h1, h2, h3⟩ := runNodes_split hr
      -- prefix frame: node n and in-edge volumes untouched
      have hfA := runNodes_frame h1
      have hmapA : nodeMap stA.g n = nodeMap G n := hfA.2.1 n hnl1
      have hrelA : List.Forall₂ (fun e0 e1 => e1.src = e0.src ∧ e1.dst = e0.dst ∧
          lookupA e1.data "volume" = lookupA e0.data "volume")
          G.edges stA.g.edges :=
        List.Forall₂.imp (fun a b hab => ⟨hab.1, hab.2.1,
          hab.2.2.1 "volume" (by rw [hL]; simp)⟩) hfA.2.2
      have hsumA : sum_edge_attr stA.g n "volume" .in_edges none none none =
          sum_edge_attr G n "volume" .in_edges none none none :=
        sum_edge_attr_eq_of_frame hrelA
      -- the node's own step
      obtain ⟨stA1, stA2⟩ := stA
      obtain ⟨nv, sv, hnv, hsv, hval⟩ := processNode_ok_volume hL h2
      -- suffix frame: node n untouched afterwards
      have hfB := runNodes_frame h3
      have hmapB : nodeMap st.g n = nodeMap stB.g n := hfB.2.1 n hnl2
      refine ⟨sv, nv, ?_, ?_, ?_⟩
      · rw [← hsumA]; exact hsv
      · rw [← hmapA]; exact hnv
      · show lookupA (nodeMap st.g n) "volume" = _
        rw [hmapB]
        exact hval

/-- C9: `solve` is not idempotent on node volume attributes: the first call
overwrites each node's volume attribute with its computed inflow, so a
second call on the same graph computes the inflow as the incoming-edge
volume sum plus the first call's result; every node with positive total
incoming-edge volume ends the second solve with a strictly larger stored
volume attribute (larger by exactly that incoming-edge volume sum). -/
theorem C9_solve_twice_not_idempotent (treatedB : Bool) (tf vr of : List String)
    (G : Graph) (n : String) (S : ℚ)
    (hnd : (nodeKeys G).Nodup) (hn : n ∈ nodeKeys G)
    (hok1 : (solve ⟨treatedB, ["load"], tf, vr, of⟩ G).error = none)
    (hok2 : (solve ⟨treatedB, ["load"], tf, vr, of⟩
        (solve ⟨treatedB, ["load"], tf, vr, of⟩ G).graph).error = none)
    (hS : sum_edge_attr G n "volume" .in_edges none none none = .ok S)
    (hSpos : 0 < S) :
    ∃ v1 v2,
      nAttr (solve ⟨treatedB, ["load"], tf, vr, of⟩ G).graph n "volume" =
        some (.num v1) ∧
      nAttr (solve ⟨treatedB, ["load"], tf, vr, of⟩
          (solve ⟨treatedB, ["load"], tf, vr, of⟩ G).graph).graph n "volume" =
        some (.num v2) ∧
      v2 = v1 + S ∧ v1 < v2 := by
  have hL : (⟨treatedB, ["load"], tf, vr, of⟩ : Config).load_cols = ["load"] := rfl
  obtain ⟨sv1, nv1, hsv1, hnv1, hval1⟩ := solve_volume_value hL hnd hn hok1
  have hsv1S : sv1 = S := by
    rw [hS] at hsv1
    simp only [Except.ok.injEq] at hsv1
    exact hsv1.symm
  have hfr := solve_frame ⟨treatedB, ["load"], tf, vr, of⟩ G
  have hkeys := hfr.1
  have hnd2 : (nodeKeys (solve ⟨treatedB, ["load"], tf, vr, of⟩ G).graph).Nodup := by
    rw [hkeys]; exact hnd
  have hn2 : n ∈ nodeKeys (solve ⟨treatedB, ["load"], tf, vr, of⟩ G).graph := by
    rw [hkeys]; exact hn
  obtain ⟨sv2, nv2, hsv2, hnv2, hval2⟩ := solve_volume_value hL hnd2 hn2 hok2
  have hrel : List.Forall₂ (fun e0 e1 => e1.src = e0.src ∧ e1.dst = e0.dst ∧
      lookupA e1.data "volume" = lookupA e0.data "volume")
      G.edges (solve ⟨treatedB, ["load"], tf, vr, of⟩ G).graph.edges :=
    List.Forall₂.imp (fun a b hab => ⟨hab.1, hab.2.1,
      hab.2.2 "volume" (by simp)⟩) hfr.2
  have hsum2 : sum_edge_attr (solve ⟨treatedB, ["load"], tf, vr, of⟩ G).graph
      n "volume" EdgeMethod.in_edges none none none =
      sum_edge_attr G n "volume" EdgeMethod.in_edges none none none :=
    sum_edge_attr_eq_of_frame hrel
  have hsv2S : sv2 = S := by
    rw [hsum2, hS] at hsv2
    simp only [Except.ok.injEq] at hsv2
    exact hsv2.symm
  have hval1' : lookupA (nodeMap (solve ⟨treatedB, ["load"], tf, vr, of⟩ G).graph n)
      "volume" = some (.num (sv1 + nv1)) := hval1
  have hnv2v : nv2 = sv1 + nv1 := by
    rw [numGetD, hval1'] at hnv2
    simp only [Except.ok.injEq] at hnv2
    exact hnv2.symm
  refine ⟨sv1 + nv1, sv2 + nv2, hval1, hval2, ?_, ?_⟩
  · rw [hnv2v, hsv2S, hsv1S]; ring
  · rw [hnv2v, hsv2S]; linarith

/-- The two-pass witness graph: subcatchment A (volume 100, load 10)
feeding B through an unflagged edge of volume 100. -/
def cgC9 : Graph :=
  { nodes := [("A", [("volume", .num 100), ("load", .num 10)]), ("B", [])],
    edges := [⟨"A", "B", [("id", .str "P1"), ("volume", .num 100)]⟩] }

/-- C9 witness: on `cgC9`, node B stores volume 100 after one solve and a
strictly larger 200 after a second solve on the same graph. -/
theorem C9_witness :
    ∃ v1 v2,
      nAttr (solve ⟨true, ["load"], ["TR"], ["INF", "HU"], ["OF"]⟩ cgC9).graph
        "B" "volume" = some (.num v1) ∧
      nAttr (solve ⟨true, ["load"], ["TR"], ["INF", "HU"], ["OF"]⟩
          (solve ⟨true, ["load"], ["TR"], ["INF", "HU"], ["OF"]⟩ cgC9).graph).graph
        "B" "volume" = some (.num v2) ∧
      v2 = v1 + 100 ∧ v1 < v2 :=
  C9_solve_twice_not_idempotent true ["TR"] ["INF", "HU"] ["OF"] cgC9 "B" 100
    (by decide) (by decide)
    (by simp [solve, topological_sort, topoAux, nodeKeys, cgC9, List.find?,
      List.erase, beq_eq_decideEq, runNodes, processNode, processLoadCols,
      processLoadCol, numGetD, nodeMap, nAttr, lookupA, sum_edge_attr,
      sumEdgeAttrAux, edgesOf, List.filter, setNode, setA, safe_divide,
      updateEdges, applyLoadEdge, overwriteDiag, asNum, anyIn, strIn, isSub,
      isPre, writeLoadResults,
      show ¬((100:ℚ) = 0) from by norm_num,
      show ((0:ℚ) < 10) from by norm_num,
      show ((0:ℚ) < 10/100 * 100) from by norm_num])
    (by simp [solve, topological_sort, topoAux, nodeKeys, cgC9, List.find?,
      List.erase, beq_eq_decideEq, runNodes, processNode, processLoadCols,
      processLoadCol, numGetD, nodeMap, nAttr, lookupA, sum_edge_attr,
      sumEdgeAttrAux, edgesOf, List.filter, setNode, setA, safe_divide,
      updateEdges, applyLoadEdge, overwriteDiag, asNum, anyIn, strIn, isSub,
      isPre, writeLoadResults,
      show ¬((100:ℚ) = 0) from by norm_num,
      show ¬((200:ℚ) = 0) from by norm_num,
      show ¬((100:ℚ) + 100 = 0) from by norm_num,
      show ((0:ℚ) < 10) from by norm_num,
      show ¬((10:ℚ)/100 * 100 = 0) from by norm_num,
      show ((0:ℚ) < 10/100 * 100) from by norm_num,
      show ((0:ℚ) < 10/100 * 100 + 10) from by norm_num,
      show ¬((10:ℚ)/100 * 100 + 10 = 0) from by norm_num])
    (by simp [sum_edge_attr, sumEdgeAttrAux, edgesOf, List.filter, cgC9,
      beq_eq_decideEq, numGetD, lookupA])
    (by norm_num)

/-! ### Characterization of the successful load write on one edge -/

theorem applyLoadEdge_ok_untreated {cfg : Config} {conc : ℚ} {e e' : Edge}
    {ws : List Warning} {s : String} {ve : ℚ}
    (hid : lookupA e.data "id" = some (.str s))
    (hvol : lookupA e.data "volume" = some (.num ve))
    (hflag : cfg.treated_flags.any (fun f => strIn f s) = false)
    (h : applyLoadEdge cfg "load" conc e = .ok (e', ws)) :
    e'.data = setA e.data "load" (.num (conc * ve)) := by
  simp only [applyLoadEdge] at h
  split at h
  · simp at h
  · rw [hvol] at h
    simp only [asNum] at h
    by_cases htr : cfg.treated = true
    · rw [if_pos htr] at h
      cases htf : cfg.treated_flags with
      | nil =>
        rw [htf] at h
        simp only [Except.ok.injEq, Prod.mk.injEq] at h
        rw [← h.1]
      | cons f fs =>
        rw [htf] at h
        simp only at h
        rw [show lookupA (setA e.data "load" (AttrVal.num (conc * ve))) "id" =
            some (.str s) from by
          rw [lookupA_setA_ne _ _ (by decide)]; exact hid] at h
        rw [htf] at hflag
        simp only [hflag, Bool.false_eq_true, if_false] at h
        injection h with h2
        injection h2 with h3 h4
        subst h3
        rfl
    · rw [if_neg htr] at h
      simp only [Except.ok.injEq, Prod.mk.injEq] at h
      rw [← h.1]

theorem applyLoadEdge_ok_treated {cfg : Config} {conc : ℚ} {e e' : Edge}
    {ws : List Warning} {s : String} {ve : ℚ}
    (htr : cfg.treated = true)
    (hid : lookupA e.data "id" = some (.str s))
    (hvol : lookupA e.data "volume" = some (.num ve))
    (hflag : cfg.treated_flags.any (fun f => strIn f s) = true)
    (h : applyLoadEdge cfg "load" conc e = .ok (e', ws)) :
    e'.data = setA e.data "load" (.num ((1 - 7/10) * conc * ve)) := by
  simp only [applyLoadEdge] at h
  split at h
  · simp at h
  · rw [hvol] at h
    simp only [asNum] at h
    rw [if_pos htr] at h
    cases htf : cfg.treated_flags with
    | nil => rw [htf] at hflag; simp at hflag
    | cons f fs =>
      rw [htf] at h
      simp only at h
      rw [show lookupA (setA e.data "load" (AttrVal.num (conc * ve))) "id" =
          some (.str s) from by
        rw [lookupA_setA_ne _ _ (by decide)]; exact hid] at h
      rw [htf] at hflag
      simp only [hflag, if_true] at h
      injection h with h2
      injection h2 with h3 h4
      subst h3
      exact setA_setA _ _ _ _

theorem forall₂_mem_right {α : Type} {R : α → α → Prop} :
    ∀ {l0 l1 : List α}, List.Forall₂ R l0 l1 → ∀ {b}, b ∈ l1 →
      ∃ a ∈ l0, R a b := by
  intro l0 l1 h
  induction h with
  | nil => intro b hb; simp at hb
  | cons hab h' ih =>
    intro b hb
    rcases List.mem_cons.mp hb with rfl | hb'
    · exact ⟨_, by simp, hab⟩
    · obtain ⟨a, ha, hr⟩ := ih hb'
      exact ⟨a, List.mem_cons_of_mem _ ha, hr⟩

theorem anyIn_str_false {vr : List String} {s : String}
    (h : ∀ fl ∈ vr, strIn fl s = false) : anyIn vr (.str s) = .ok false := by
  cases vr with
  | nil => rfl
  | cons f fs =>
    simp only [anyIn, Except.ok.injEq]
    rw [List.any_eq_false]
    intro x hx
    simp [h x hx]

/-- Summing the written loads over the updated out-edges gives the
concentration times the original volume sum. -/
theorem sumAux_load_of_rel {conc : ℚ} :
    ∀ {es0 es1 : List Edge},
      List.Forall₂ (fun e0 e1 => ∃ ve,
        lookupA e0.data "volume" = some (.num ve) ∧
        lookupA e1.data "load" = some (.num (conc * ve))) es0 es1 →
      ∀ v w, sumEdgeAttrAux "volume" none none none es0 v = .ok w →
        sumEdgeAttrAux "load" none none none es1 (conc * v) = .ok (conc * w) := by
  intro es0 es1 h
  induction h with
  | nil =>
    intro v w hs
    simp only [sumEdgeAttrAux, Except.ok.injEq] at hs ⊢
    rw [hs]
  | cons hab h' ih =>
    intro v w hs
    obtain ⟨ve, h0, h1⟩ := hab
    simp only [sumEdgeAttrAux, numGetD, h0] at hs
    simp only [sumEdgeAttrAux, numGetD, h1]
    rw [← mul_add]
    exact ih (v + ve) w hs

/-- The exclude-filtered volume sum over the updated out-edges equals the
raw volume sum over the original out-edges when no identifier matches an
exclude flag. -/
theorem sumAux_vol_exclude_of_rel {vr : List String} :
    ∀ {es0 es1 : List Edge},
      List.Forall₂ (fun e0 e1 => ∃ s ve,
        lookupA e1.data "id" = some (.str s) ∧
        (∀ fl ∈ vr, strIn fl s = false) ∧
        lookupA e0.data "volume" = some (.num ve) ∧
        lookupA e1.data "volume" = some (.num ve)) es0 es1 →
      ∀ v, sumEdgeAttrAux "volume" (some "id") none (some vr) es1 v =
        sumEdgeAttrAux "volume" none none none es0 v := by
  intro es0 es1 h
  induction h with
  | nil => intro v; rfl
  | cons hab h' ih =>
    intro v
    obtain ⟨s, ve, hid, hfl, h0, h1⟩ := hab
    simp only [sumEdgeAttrAux, numGetD, h0, h1, hid, anyIn_str_false hfl]
    exact ih (v + ve)

/-- Splitting a successful solve at one node. -/
theorem solve_split {cfg : Config} {G : Graph} (hnd : (nodeKeys G).Nodup)
    {n : String} (hn : n ∈ nodeKeys G) (hok : (solve cfg G).error = none) :
    ∃ l1 l2 stA stB, n ∉ l1 ∧ n ∉ l2 ∧
      runNodes cfg l1 ⟨G, []⟩ = (stA, none) ∧
      processNode cfg n stA = (stB, none) ∧
      runNodes cfg l2 stB =
        (⟨(solve cfg G).graph, (solve cfg G).warnings⟩, none) := by
  cases ht : topological_sort G with
  | none => simp [solve, ht] at hok
  | some order =>
    cases hr : runNodes cfg order ⟨G, []⟩ with
    | mk st er =>
      simp only [solve, ht, hr] at hok ⊢
      subst hok
      have hperm := topological_sort_perm ht
      have hordnd : order.Nodup := (List.Perm.nodup_iff hperm).mpr hnd
      have hnord : n ∈ order := hperm.mem_iff.mpr hn
      obtain ⟨l1, l2, horder⟩ := List.append_of_mem hnord
      subst horder
      have hnl1 : n ∉ l1 := by
        rw [List.nodup_append] at hordnd
        intro hc
        exact hordnd.2.2 hc (by simp)
      have hnl2 : n ∉ l2 := by
        rw [List.nodup_append] at hordnd
        exact (List.nodup_cons.mp hordnd.2.1).1
      obtain ⟨stA, stB, h1, h2, h3⟩ := runNodes_split hr
      exact ⟨l1, l2, stA, stB, hnl1, hnl2, h1, h2, h3⟩

/-- C5 (amended): for every node processed with nonzero inflow volume whose
identity contains an outfall flag as a substring, `solve` stores
`load_out` equal to the stored inflow load `load_in`, `volume_out` equal to
the inflow volume `vol_in`, and `volume_treated` equal to `0`, regardless
of the flags carried by the node's outgoing edges (no hypothesis restricts
them). The inflow volume is read on the input graph; the inflow load is
the value `solve` itself stores under the plain load key at that node. -/
theorem C5_outfall_passthrough (treatedB : Bool) (tf vr of : List String)
    (G : Graph) (n : String) (sv nv : ℚ)
    (hnd : (nodeKeys G).Nodup) (hn : n ∈ nodeKeys G)
    (hout : of.any (fun f => strIn f n) = true)
    (hok : (solve ⟨treatedB, ["load"], tf, vr, of⟩ G).error = none)
    (hsv : sum_edge_attr G n "volume" .in_edges none none none = .ok sv)
    (hnv : numGetD (nodeMap G n) "volume" 0 = .ok nv)
    (hvz : sv + nv ≠ 0) :
    ∃ li,
      nAttr (solve ⟨treatedB, ["load"], tf, vr, of⟩ G).graph n "load" =
        some (.num li) ∧
      nAttr (solve ⟨treatedB, ["load"], tf, vr, of⟩ G).graph n "load_out" =
        some (.num li) ∧
      nAttr (solve ⟨treatedB, ["load"], tf, vr, of⟩ G).graph n "volume_out" =
        some (.num (sv + nv)) ∧
      nAttr (solve ⟨treatedB, ["load"], tf, vr, of⟩ G).graph n
        "volume_treated" = some (.num 0) := by
  have hL : (⟨treatedB, ["load"], tf, vr, of⟩ : Config).load_cols =
      ["load"] := rfl
  obtain ⟨l1, l2, stA, stB, hnl1, hnl2, h1, h2, h3⟩ := solve_split hnd hn hok
  have hfA := runNodes_frame h1
  have hmapA : nodeMap stA.g n = nodeMap G n := hfA.2.1 n hnl1
  have hrelA : List.Forall₂ (fun e0 e1 => e1.src = e0.src ∧ e1.dst = e0.dst ∧
      lookupA e1.data "volume" = lookupA e0.data "volume")
      G.edges stA.g.edges :=
    List.Forall₂.imp (fun a b hab => ⟨hab.1, hab.2.1,
      hab.2.2.1 "volume" (by rw [hL]; simp)⟩) hfA.2.2
  have hsumA : sum_edge_attr stA.g n "volume" .in_edges none none none =
      sum_edge_attr G n "volume" .in_edges none none none :=
    sum_edge_attr_eq_of_frame hrelA
  obtain ⟨gA, wsA⟩ := stA
  obtain ⟨nv', sv', hnv', hsv', ck, hck, g2, hg2, hcase⟩ := processNode_ok h2
  have hnveq : nv = nv' := by
    have h0 : numGetD (nodeMap G n) "volume" 0 = .ok nv' := by
      rw [← hmapA]; exact hnv'
    exact Except.ok.inj (hnv.symm.trans h0)
  have hsveq : sv = sv' := by
    have h0 : sum_edge_attr G n "volume" .in_edges none none none =
        .ok sv' := by
      rw [← hsumA]; exact hsv'
    exact Except.ok.inj (hsv.symm.trans h0)
  subst hnveq hsveq
  rcases hcase with ⟨hz, -⟩ | ⟨-, hrun⟩
  · exact absurd hz hvz
  · rw [hL] at hrun
    have hone := processLoadCols_one hrun
    obtain ⟨ls, nl, hls, hnl, gx, hgx, hcase2⟩ := processLoadCol_ok hone
    have hfB := runNodes_frame h3
    have hmapB : nodeMap (solve ⟨treatedB, ["load"], tf, vr, of⟩ G).graph n =
        nodeMap stB.g n := hfB.2.1 n hnl2
    have hgxload : nAttr gx n "load" = some (.num (ls + nl)) := by
      rw [hgx]
      rw [nAttr_setNode, nAttr_setNode]
      simp
    rcases hcase2 with ⟨-, hstB⟩ | ⟨-, es', ws2, -, g3, hg3, hcase3⟩
    · refine ⟨ls + nl, ?_, ?_, ?_, ?_⟩
      · show lookupA (nodeMap (solve ⟨treatedB, ["load"], tf, vr, of⟩ G).graph
          n) "load" = _
        rw [hmapB, hstB]
        exact (writeLoadResults_other n (sv + nv) (ls + nl) (ls + nl) (sv + nv)
          0 gx "load" (by decide) (by decide) (by decide) (by decide)
          (by decide) (by decide) (by decide) (by decide) (by decide)
          (by decide)).trans hgxload
      · show lookupA (nodeMap (solve ⟨treatedB, ["load"], tf, vr, of⟩ G).graph
          n) "load_out" = _
        rw [hmapB, hstB]
        exact writeLoadResults_load_out n (sv + nv) (ls + nl) (ls + nl)
          (sv + nv) 0 gx
      · show lookupA (nodeMap (solve ⟨treatedB, ["load"], tf, vr, of⟩ G).graph
          n) "volume_out" = _
        rw [hmapB, hstB]
        exact writeLoadResults_volume_out n (sv + nv) (ls + nl) (ls + nl)
          (sv + nv) 0 gx
      · show lookupA (nodeMap (solve ⟨treatedB, ["load"], tf, vr, of⟩ G).graph
          n) "volume_treated" = _
        rw [hmapB, hstB]
        exact writeLoadResults_volume_treated n (sv + nv) (ls + nl) (ls + nl)
          (sv + nv) 0 gx
    · have hg3load : nAttr g3 n "load" = some (.num (ls + nl)) := by
        rw [hg3]
        show lookupA (nodeMap { gx with edges := es' } n) "load" = _
        have hnm : nodeMap { gx with edges := es' } n = nodeMap gx n := rfl
        rw [hnm]
        exact hgxload
      rcases hcase3 with ⟨-, hstB⟩ | ⟨houtF, -⟩
      · refine ⟨ls + nl, ?_, ?_, ?_, ?_⟩
        · show lookupA (nodeMap (solve ⟨treatedB, ["load"], tf, vr, of⟩
            G).graph n) "load" = _
          rw [hmapB, hstB]
          exact (writeLoadResults_other n (sv + nv) (ls + nl) (ls + nl)
            (sv + nv) 0 g3 "load" (by decide) (by decide) (by decide)
            (by decide) (by decide) (by decide) (by decide) (by decide)
            (by decide) (by decide)).trans hg3load
        · show lookupA (nodeMap (solve ⟨treatedB, ["load"], tf, vr, of⟩
            G).graph n) "load_out" = _
          rw [hmapB, hstB]
          exact writeLoadResults_load_out n (sv + nv) (ls + nl) (ls + nl)
            (sv + nv) 0 g3
        · show lookupA (nodeMap (solve ⟨treatedB, ["load"], tf, vr, of⟩
            G).graph n) "volume_out" = _
          rw [hmapB, hstB]
          exact writeLoadResults_volume_out n (sv + nv) (ls + nl) (ls + nl)
            (sv + nv) 0 g3
        · show lookupA (nodeMap (solve ⟨treatedB, ["load"], tf, vr, of⟩
            G).graph n) "volume_treated" = _
          rw [hmapB, hstB]
          exact writeLoadResults_volume_treated n (sv + nv) (ls + nl)
            (ls + nl) (sv + nv) 0 g3
      · have houtF' : of.any (fun f => strIn f n) = false := houtF
        rw [hout] at houtF'
        exact Bool.noConfusion houtF'

/-- Subcatchment A (volume 100, load 10) feeding outfall OF1 through an
edge that carries a treated flag in its identifier. -/
def cgC5w : Graph :=
  { nodes := [("A", [("volume", .num 100), ("load", .num 10)]), ("OF1", [])],
    edges := [⟨"A", "OF1", [("id", .str "TR-X"), ("volume", .num 100)]⟩] }

/-- C5 witness: on `cgC5w` the solve succeeds, `OF1` matches an outfall
flag, the incoming edge matches a treated flag, and the amended claim
applies: `load_out` equals the stored inflow load, `volume_out` equals the
inflow volume `100 + 0`, and `volume_treated` is `0`. -/
theorem C5_witness :
    (solve ⟨true, ["load"], ["TR"], ["INF", "HU"], ["OF"]⟩ cgC5w).error =
      none ∧
    ["OF"].any (fun f => strIn f "OF1") = true ∧
    strIn "TR" "TR-X" = true ∧
    ∃ li,
      nAttr (solve ⟨true, ["load"], ["TR"], ["INF", "HU"], ["OF"]⟩
        cgC5w).graph "OF1" "load" = some (.num li) ∧
      nAttr (solve ⟨true, ["load"], ["TR"], ["INF", "HU"], ["OF"]⟩
        cgC5w).graph "OF1" "load_out" = some (.num li) ∧
      nAttr (solve ⟨true, ["load"], ["TR"], ["INF", "HU"], ["OF"]⟩
        cgC5w).graph "OF1" "volume_out" = some (.num (100 + 0)) ∧
      nAttr (solve ⟨true, ["load"], ["TR"], ["INF", "HU"], ["OF"]⟩
        cgC5w).graph "OF1" "volume_treated" = some (.num 0) := by
  have hok : (solve ⟨true, ["load"], ["TR"], ["INF", "HU"], ["OF"]⟩
      cgC5w).error = none := by
    simp [solve, topological_sort, topoAux, nodeKeys, cgC5w, List.find?,
      List.erase, beq_eq_decideEq, runNodes, processNode, processLoadCols,
      processLoadCol, numGetD, nodeMap, nAttr, lookupA, sum_edge_attr,
      sumEdgeAttrAux, edgesOf, List.filter, setNode, setA, safe_divide,
      updateEdges, applyLoadEdge, overwriteDiag, asNum, anyIn, strIn, isSub,
      isPre, writeLoadResults, show ((7:ℚ)/10 < 1) from by norm_num,
      show ¬((10:ℚ)/100 = 0) from by norm_num,
      show ¬((100:ℚ) = 0) from by norm_num,
      show ((0:ℚ) < 10) from by norm_num,
      show ((0:ℚ) < (1 - 7/10) * (10/100) * 100) from by norm_num]
  refine ⟨hok, by decide, by decide, ?_⟩
  refine C5_outfall_passthrough true ["TR"] ["INF", "HU"] ["OF"] cgC5w "OF1"
    100 0 (by decide) (by decide) (by decide) hok ?_ ?_ (by norm_num)
  · simp [sum_edge_attr, sumEdgeAttrAux, edgesOf, cgC5w, numGetD, lookupA,
      List.filter, beq_eq_decideEq]
  · simp [numGetD, nodeMap, cgC5w, lookupA, beq_eq_decideEq]

theorem forall₂_imp_mem {α : Type} {R S : α → α → Prop} :
    ∀ {l1 l2 : List α}, List.Forall₂ R l1 l2 →
      (∀ a b, a ∈ l1 → R a b → S a b) → List.Forall₂ S l1 l2 := by
  intro l1 l2 h
  induction h with
  | nil => intro _; exact List.Forall₂.nil
  | cons hab h' ih =>
    rename_i a b l1' l2'
    intro hmem
    exact List.Forall₂.cons (hmem a b (by simp) hab)
      (ih (fun x y hx hr => hmem x y (List.mem_cons_of_mem _ hx) hr))

theorem forall₂_eq_lists {α : Type} :
    ∀ {l1 l2 : List α}, List.Forall₂ (fun a b => b = a) l1 l2 → l2 = l1 := by
  intro l1 l2 h
  induction h with
  | nil => rfl
  | cons hab h' ih => rw [hab, ih]

/-- Characterization of the single load pass `solve` runs at one node with
nonzero inflow: the node's stored load equals the inflow load `ls + nl`,
the out-edges seen by the pass are those of the input graph, and the final
state is the pass-through write (non-positive load, or outfall) or the
write of the three outgoing sums over the updated edges; the node's
attribute map and the edges leaving it are untouched afterwards. -/
theorem solve_load_pass (treatedB : Bool) (tf vr of : List String)
    (G : Graph) (n : String) (sv nv : ℚ)
    (hnd : (nodeKeys G).Nodup) (hn : n ∈ nodeKeys G)
    (hok : (solve ⟨treatedB, ["load"], tf, vr, of⟩ G).error = none)
    (hsv : sum_edge_attr G n "volume" .in_edges none none none = .ok sv)
    (hnv : numGetD (nodeMap G n) "volume" 0 = .ok nv)
    (hvz : sv + nv ≠ 0) :
    ∃ (ls nl : ℚ) (gx : Graph) (stB : St) (wsA : List Warning),
      nodeMap (solve ⟨treatedB, ["load"], tf, vr, of⟩ G).graph n =
        nodeMap stB.g n ∧
      List.Forall₂ (fun e0 e1 => e1.src = e0.src ∧ (e0.src = n → e1 = e0))
        stB.g.edges (solve ⟨treatedB, ["load"], tf, vr, of⟩ G).graph.edges ∧
      nAttr gx n "load" = some (.num (ls + nl)) ∧
      gx.edges.filter (fun e => e.src == n) =
        G.edges.filter (fun e => e.src == n) ∧
      ((¬ ls + nl > 0 ∧
          stB = ⟨writeLoadResults n "load" (sv + nv) (ls + nl) (ls + nl)
            (sv + nv) 0 gx, wsA⟩) ∨
        (ls + nl > 0 ∧ ∃ es' ws2,
          updateEdges ⟨treatedB, ["load"], tf, vr, of⟩ n "load"
            (safe_divide (ls + nl) (sv + nv)) gx.edges = (es', ws2, none) ∧
          ((of.any (fun f => strIn f n) = true ∧
              stB = ⟨writeLoadResults n "load" (sv + nv) (ls + nl) (ls + nl)
                (sv + nv) 0 { gx with edges := es' }, wsA ++ ws2⟩) ∨
            (of.any (fun f => strIn f n) = false ∧ ∃ lo vo vt,
              sumEdgeAttrAux "load" none none none
                (es'.filter (fun e => e.src == n)) 0 = .ok lo ∧
              sumEdgeAttrAux "volume" (some "id") none (some vr)
                (es'.filter (fun e => e.src == n)) 0 = .ok vo ∧
              stB = ⟨writeLoadResults n "load" (sv + nv) (ls + nl) lo vo vt
                { gx with edges := es' }, wsA ++ ws2⟩)))) := by
  have hL : (⟨treatedB, ["load"], tf, vr, of⟩ : Config).load_cols =
      ["load"] := rfl
  obtain ⟨l1, l2, stA, stB, hnl1, hnl2, h1, h2, h3⟩ := solve_split hnd hn hok
  have hfA := runNodes_frame h1
  have hmapA : nodeMap stA.g n = nodeMap G n := hfA.2.1 n hnl1
  have hrelA : List.Forall₂ (fun e0 e1 => e1.src = e0.src ∧ e1.dst = e0.dst ∧
      lookupA e1.data "volume" = lookupA e0.data "volume")
      G.edges stA.g.edges :=
    List.Forall₂.imp (fun a b hab => ⟨hab.1, hab.2.1,
      hab.2.2.1 "volume" (by rw [hL]; simp)⟩) hfA.2.2
  have hsumA : sum_edge_attr stA.g n "volume" .in_edges none none none =
      sum_edge_attr G n "volume" .in_edges none none none :=
    sum_edge_attr_eq_of_frame hrelA
  have hOEA : stA.g.edges.filter (fun e => e.src == n) =
      G.edges.filter (fun e => e.src == n) := by
    have hfilt : List.Forall₂ (fun e0 e1 : Edge => e1.src = e0.src ∧
        e1.dst = e0.dst ∧
        (∀ k, k ∉ (⟨treatedB, ["load"], tf, vr, of⟩ : Config).load_cols →
          lookupA e1.data k = lookupA e0.data k) ∧
        (e0.src ∉ l1 → e1 = e0))
        (G.edges.filter (fun e => e.src == n))
        (stA.g.edges.filter (fun e => e.src == n)) :=
      forall₂_filter (fun a b hab => by rw [hab.1]) hfA.2.2
    refine forall₂_eq_lists (forall₂_imp_mem hfilt (fun a b ha hab => ?_))
    have hasrc : a.src = n := by
      have hb := List.of_mem_filter ha
      exact eq_of_beq hb
    exact hab.2.2.2 (by rw [hasrc]; exact hnl1)
  obtain ⟨gA, wsA⟩ := stA
  obtain ⟨nv', sv', hnv', hsv', ck, hck, g2, hg2, hcase⟩ := processNode_ok h2
  have hnveq : nv = nv' := by
    have h0 : numGetD (nodeMap G n) "volume" 0 = .ok nv' := by
      rw [← hmapA]; exact hnv'
    exact Except.ok.inj (hnv.symm.trans h0)
  have hsveq : sv = sv' := by
    have h0 : sum_edge_attr G n "volume" .in_edges none none none =
        .ok sv' := by
      rw [← hsumA]; exact hsv'
    exact Except.ok.inj (hsv.symm.trans h0)
  subst hnveq hsveq
  rcases hcase with ⟨hz, -⟩ | ⟨-, hrun⟩
  · exact absurd hz hvz
  · rw [hL] at hrun
    have hone := processLoadCols_one hrun
    obtain ⟨ls, nl, hls, hnl, gx, hgx, hcase2⟩ := processLoadCol_ok hone
    have hfB := runNodes_frame h3
    have hmapB : nodeMap (solve ⟨treatedB, ["load"], tf, vr, of⟩ G).graph n =
        nodeMap stB.g n := hfB.2.1 n hnl2
    have hedgeB : List.Forall₂ (fun e0 e1 => e1.src = e0.src ∧
        (e0.src = n → e1 = e0)) stB.g.edges
        (solve ⟨treatedB, ["load"], tf, vr, of⟩ G).graph.edges :=
      List.Forall₂.imp (fun a b hab => ⟨hab.1, fun hsrc => hab.2.2.2
        (by rw [hsrc]; exact hnl2)⟩) hfB.2.2
    have hgxload : nAttr gx n "load" = some (.num (ls + nl)) := by
      rw [hgx]
      rw [nAttr_setNode, nAttr_setNode]
      simp
    have hg2e : g2.edges = gA.edges := by rw [hg2]; rfl
    have hgxe : gx.edges = g2.edges := by rw [hgx]; rfl
    have hOE : gx.edges.filter (fun e => e.src == n) =
        G.edges.filter (fun e => e.src == n) := by
      rw [hgxe, hg2e]; exact hOEA
    refine ⟨ls, nl, gx, stB, wsA, hmapB, hedgeB, hgxload, hOE, ?_⟩
    rcases hcase2 with ⟨hnpos, hstB⟩ | ⟨hpos, es', ws2, hue, g3, hg3, hcase3⟩
    · exact Or.inl ⟨hnpos, hstB⟩
    · refine Or.inr ⟨hpos, es', ws2, hue, ?_⟩
      rcases hcase3 with ⟨houtT, hstB⟩ | ⟨houtF, lo, vo, vt, hlo, hvo, hvt,
        hstB⟩
      · rw [hg3] at hstB
        exact Or.inl ⟨houtT, hstB⟩
      · rw [hg3] at hlo hvo hstB
        refine Or.inr ⟨houtF, lo, vo, vt, hlo, hvo, hstB⟩

/-- C4 (amended): for every node processed with nonzero inflow volume
`sv + nv`, whose outgoing edges carry string identifiers matching no
treated flag and no volume-reduction flag and numeric volumes, whose
identity matches no outfall flag, and whose outgoing edge volumes sum to
the inflow volume, `solve` stores `volume_out` equal to the inflow volume
and `load_out` equal to the stored inflow load; in general `volume_out` is
the sum `S` of the outgoing edge volumes, which need not equal the inflow
volume. -/
theorem C4_mass_balance (treatedB : Bool) (tf vr of : List String)
    (G : Graph) (n : String) (sv nv S : ℚ)
    (hnd : (nodeKeys G).Nodup) (hn : n ∈ nodeKeys G)
    (hedges : ∀ e ∈ G.edges, e.src = n → ∃ s ve,
      lookupA e.data "id" = some (.str s) ∧
      lookupA e.data "volume" = some (.num ve) ∧
      (∀ fl ∈ tf, strIn fl s = false) ∧ (∀ fl ∈ vr, strIn fl s = false))
    (houtF : of.any (fun f => strIn f n) = false)
    (hok : (solve ⟨treatedB, ["load"], tf, vr, of⟩ G).error = none)
    (hsv : sum_edge_attr G n "volume" .in_edges none none none = .ok sv)
    (hnv : numGetD (nodeMap G n) "volume" 0 = .ok nv)
    (hvz : sv + nv ≠ 0)
    (hS : sum_edge_attr G n "volume" .out_edges none none none = .ok S)
    (hSvi : S = sv + nv) :
    ∃ li,
      nAttr (solve ⟨treatedB, ["load"], tf, vr, of⟩ G).graph n "load" =
        some (.num li) ∧
      nAttr (solve ⟨treatedB, ["load"], tf, vr, of⟩ G).graph n "load_out" =
        some (.num li) ∧
      nAttr (solve ⟨treatedB, ["load"], tf, vr, of⟩ G).graph n "volume_out" =
        some (.num (sv + nv)) := by
  obtain ⟨ls, nl, gx, stB, wsA, hmapB, hedgeB, hgxload, hOE, hcase⟩ :=
    solve_load_pass treatedB tf vr of G n sv nv hnd hn hok hsv hnv hvz
  rcases hcase with ⟨-, hstB⟩ | ⟨hpos, es', ws2, hue, hcase3⟩
  · refine ⟨ls + nl, ?_, ?_, ?_⟩
    · show lookupA (nodeMap (solve ⟨treatedB, ["load"], tf, vr, of⟩ G).graph
        n) "load" = _
      rw [hmapB, hstB]
      exact (writeLoadResults_other n (sv + nv) (ls + nl) (ls + nl) (sv + nv)
        0 gx "load" (by decide) (by decide) (by decide) (by decide)
        (by decide) (by decide) (by decide) (by decide) (by decide)
        (by decide)).trans hgxload
    · show lookupA (nodeMap (solve ⟨treatedB, ["load"], tf, vr, of⟩ G).graph
        n) "load_out" = _
      rw [hmapB, hstB]
      exact writeLoadResults_load_out n (sv + nv) (ls + nl) (ls + nl)
        (sv + nv) 0 gx
    · show lookupA (nodeMap (solve ⟨treatedB, ["load"], tf, vr, of⟩ G).graph
        n) "volume_out" = _
      rw [hmapB, hstB]
      exact writeLoadResults_volume_out n (sv + nv) (ls + nl) (ls + nl)
        (sv + nv) 0 gx
  · rcases hcase3 with ⟨houtT, -⟩ | ⟨-, lo, vo, vt, hlo, hvo, hstB⟩
    · rw [houtF] at houtT
      exact Bool.noConfusion houtT
    · have hrelU := updateEdges_none hue
      have hfiltU : List.Forall₂ (fun e0 e1 : Edge =>
          (e0.src ≠ n ∧ e1 = e0) ∨
          (e0.src = n ∧ ∃ ws0, applyLoadEdge ⟨treatedB, ["load"], tf, vr, of⟩
            "load" (safe_divide (ls + nl) (sv + nv)) e0 = .ok (e1, ws0)))
          (gx.edges.filter (fun e => e.src == n))
          (es'.filter (fun e => e.src == n)) := by
        refine forall₂_filter (fun a b hab => ?_) hrelU
        rcases hab with ⟨-, rfl⟩ | ⟨ha, ws0, happ⟩
        · rfl
        · rw [(applyLoadEdge_frame_ok happ).1]
      rw [hOE] at hfiltU
      have hdata : List.Forall₂ (fun e0 e1 : Edge => ∃ s ve,
          lookupA e0.data "volume" = some (.num ve) ∧
          lookupA e1.data "load" =
            some (.num (safe_divide (ls + nl) (sv + nv) * ve)) ∧
          lookupA e1.data "id" = some (.str s) ∧
          (∀ fl ∈ vr, strIn fl s = false) ∧
          lookupA e1.data "volume" = some (.num ve))
          (G.edges.filter (fun e => e.src == n))
          (es'.filter (fun e => e.src == n)) := by
        refine forall₂_imp_mem hfiltU (fun a b ha hab => ?_)
        have haG : a ∈ G.edges := List.mem_of_mem_filter ha
        have hb := List.of_mem_filter ha
        have hasrc : a.src = n := eq_of_beq hb
        obtain ⟨s, ve, hid, hvol, htf, hvr⟩ := hedges a haG hasrc
        rcases hab with ⟨hne, -⟩ | ⟨-, ws0, happ⟩
        · exact absurd hasrc hne
        · have hflag : (⟨treatedB, ["load"], tf, vr, of⟩ :
              Config).treated_flags.any (fun f => strIn f s) = false := by
            show tf.any (fun f => strIn f s) = false
            rw [List.any_eq_false]
            intro x hx
            simp [htf x hx]
          have hbdata := applyLoadEdge_ok_untreated hid hvol hflag happ
          refine ⟨s, ve, hvol, ?_, ?_, hvr, ?_⟩
          · rw [hbdata]; exact lookupA_setA_self _ _ _
          · rw [hbdata, lookupA_setA_ne _ _ (by decide)]; exact hid
          · rw [hbdata, lookupA_setA_ne _ _ (by decide)]; exact hvol
      have hS0 : sumEdgeAttrAux "volume" none none none
          (G.edges.filter (fun e => e.src == n)) 0 = .ok S := hS
      have hcomp := sumAux_load_of_rel
        (List.Forall₂.imp (fun a b hab =>
          let ⟨s, ve, h1, h2, h3, h4, h5⟩ := hab; ⟨ve, h1, h2⟩) hdata)
        0 S hS0
      rw [mul_zero] at hcomp
      have hloval : lo = safe_divide (ls + nl) (sv + nv) * S :=
        Except.ok.inj (hlo.symm.trans hcomp)
      have hvoeq := sumAux_vol_exclude_of_rel
        (List.Forall₂.imp (fun a b hab =>
          let ⟨s, ve, h1, h2, h3, h4, h5⟩ := hab; ⟨s, ve, h3, h4, h1, h5⟩)
          hdata) 0
      have hvoval : vo = S := by
        rw [hvoeq, hS0] at hvo
        exact Except.ok.inj hvo.symm
      have hconc : safe_divide (ls + nl) (sv + nv) * S = ls + nl := by
        rw [hSvi, safe_divide, if_neg hvz]
        exact div_mul_cancel₀ _ hvz
      refine ⟨ls + nl, ?_, ?_, ?_⟩
      · show lookupA (nodeMap (solve ⟨treatedB, ["load"], tf, vr, of⟩
          G).graph n) "load" = _
        rw [hmapB, hstB]
        refine (writeLoadResults_other n (sv + nv) (ls + nl) lo vo vt
          { gx with edges := es' } "load" (by decide) (by decide) (by decide)
          (by decide) (by decide) (by decide) (by decide) (by decide)
          (by decide) (by decide)).trans ?_
        show lookupA (nodeMap { gx with edges := es' } n) "load" = _
        have hnm : nodeMap { gx with edges := es' } n = nodeMap gx n := rfl
        rw [hnm]
        exact hgxload
      · show lookupA (nodeMap (solve ⟨treatedB, ["load"], tf, vr, of⟩
          G).graph n) "load_out" = _
        rw [hmapB, hstB]
        have hlo2 : lo = ls + nl := hloval.trans hconc
        rw [hlo2]
        exact writeLoadResults_load_out n (sv + nv) (ls + nl) (ls + nl) vo vt
          { gx with edges := es' }
      · show lookupA (nodeMap (solve ⟨treatedB, ["load"], tf, vr, of⟩
          G).graph n) "volume_out" = _
        rw [hmapB, hstB]
        have hvo2 : vo = sv + nv := hvoval.trans hSvi
        rw [hvo2]
        exact writeLoadResults_volume_out n (sv + nv) (ls + nl) lo (sv + nv)
          vt { gx with edges := es' }

/-- Subcatchment A (volume 100, load 10) feeding B through an unflagged
edge whose volume 100 equals A's inflow volume. -/
def cgC4w : Graph :=
  { nodes := [("A", [("volume", .num 100), ("load", .num 10)]), ("B", [])],
    edges := [⟨"A", "B", [("id", .str "P1"), ("volume", .num 100)]⟩] }

/-- C4 witness: on `cgC4w` the out-edge volumes of A sum to the inflow
volume `0 + 100`, and the amended claim applies: `volume_out` equals the
inflow volume and `load_out` equals the stored inflow load. -/
theorem C4_witness :
    sum_edge_attr cgC4w "A" "volume" .out_edges none none none = .ok 100 ∧
    (100 : ℚ) = 0 + 100 ∧
    ∃ li,
      nAttr (solve ⟨true, ["load"], ["TR"], ["INF", "HU"], ["OF"]⟩
        cgC4w).graph "A" "load" = some (.num li) ∧
      nAttr (solve ⟨true, ["load"], ["TR"], ["INF", "HU"], ["OF"]⟩
        cgC4w).graph "A" "load_out" = some (.num li) ∧
      nAttr (solve ⟨true, ["load"], ["TR"], ["INF", "HU"], ["OF"]⟩
        cgC4w).graph "A" "volume_out" = some (.num (0 + 100)) := by
  refine ⟨?_, by norm_num, ?_⟩
  · simp [sum_edge_attr, sumEdgeAttrAux, edgesOf, List.filter, cgC4w,
      beq_eq_decideEq, numGetD, lookupA]
  · refine C4_mass_balance true ["TR"] ["INF", "HU"] ["OF"] cgC4w "A" 0 100
      100 (by decide) (by decide) ?_ (by decide) ?_ ?_ ?_ (by norm_num) ?_
      (by norm_num)
    · intro e he hsrc
      rcases List.mem_cons.mp he with rfl | he2
      · exact ⟨"P1", 100, rfl, rfl, by decide, by decide⟩
      · simp at he2
    · simp [solve, topological_sort, topoAux, nodeKeys, cgC4w, List.find?,
        List.erase, beq_eq_decideEq, runNodes, processNode, processLoadCols,
        processLoadCol, numGetD, nodeMap, nAttr, lookupA, sum_edge_attr,
        sumEdgeAttrAux, edgesOf, List.filter, setNode, setA, safe_divide,
        updateEdges, applyLoadEdge, overwriteDiag, asNum, anyIn, strIn, isSub,
        isPre, writeLoadResults,
        show ¬((100:ℚ) = 0) from by norm_num,
        show ((0:ℚ) < 10) from by norm_num,
        show ((0:ℚ) < 10/100 * 100) from by norm_num]
    · simp [sum_edge_attr, sumEdgeAttrAux, edgesOf, List.filter, cgC4w,
        beq_eq_decideEq]
    · simp [numGetD, nodeMap, cgC4w, lookupA, beq_eq_decideEq]
    · simp [sum_edge_attr, sumEdgeAttrAux, edgesOf, List.filter, cgC4w,
        beq_eq_decideEq, numGetD, lookupA]

/-- C1 (amended): with treatment enabled, for every node processed with
nonzero inflow volume and positive stored inflow load `li`, every outgoing
edge whose string identifier matches a treated flag ends the solve with a
load equal to `(1 - 7/10) * conc_in * edge_volume`, where
`conc_in = li / vol_in` is the guarded quotient: the removal efficiency is
the hard-coded constant `0.7` of source line 219, not a configurable
fraction. -/
theorem C1_treated_edge_load (tf vr of : List String)
    (G : Graph) (n : String) (sv nv : ℚ)
    (hnd : (nodeKeys G).Nodup) (hn : n ∈ nodeKeys G)
    (hok : (solve ⟨true, ["load"], tf, vr, of⟩ G).error = none)
    (hsv : sum_edge_attr G n "volume" .in_edges none none none = .ok sv)
    (hnv : numGetD (nodeMap G n) "volume" 0 = .ok nv)
    (hvz : sv + nv ≠ 0) :
    ∃ li,
      nAttr (solve ⟨true, ["load"], tf, vr, of⟩ G).graph n "load" =
        some (.num li) ∧
      (0 < li →
        List.Forall₂ (fun e0 e1 => ∀ s ve,
            lookupA e0.data "id" = some (.str s) →
            lookupA e0.data "volume" = some (.num ve) →
            tf.any (fun f => strIn f s) = true →
            lookupA e1.data "load" =
              some (.num ((1 - 7/10) * safe_divide li (sv + nv) * ve)))
          (G.edges.filter (fun e => e.src == n))
          ((solve ⟨true, ["load"], tf, vr, of⟩ G).graph.edges.filter
            (fun e => e.src == n))) := by
  obtain ⟨ls, nl, gx, stB, wsA, hmapB, hedgeB, hgxload, hOE, hcase⟩ :=
    solve_load_pass true tf vr of G n sv nv hnd hn hok hsv hnv hvz
  have hfinalOE : (solve ⟨true, ["load"], tf, vr, of⟩ G).graph.edges.filter
      (fun e => e.src == n) = stB.g.edges.filter (fun e => e.src == n) := by
    have hfilt : List.Forall₂ (fun e0 e1 : Edge => e1.src = e0.src ∧
        (e0.src = n → e1 = e0))
        (stB.g.edges.filter (fun e => e.src == n))
        ((solve ⟨true, ["load"], tf, vr, of⟩ G).graph.edges.filter
          (fun e => e.src == n)) :=
      forall₂_filter (fun a b hab => by rw [hab.1]) hedgeB
    refine forall₂_eq_lists (forall₂_imp_mem hfilt (fun a b ha hab => ?_))
    have hb := List.of_mem_filter ha
    exact hab.2 (eq_of_beq hb)
  refine ⟨ls + nl, ?_, ?_⟩
  · show lookupA (nodeMap (solve ⟨true, ["load"], tf, vr, of⟩ G).graph n)
      "load" = _
    rw [hmapB]
    rcases hcase with ⟨-, hstB⟩ | ⟨-, es', ws2, -, hcase3⟩
    · rw [hstB]
      exact (writeLoadResults_other n (sv + nv) (ls + nl) (ls + nl) (sv + nv)
        0 gx "load" (by decide) (by decide) (by decide) (by decide)
        (by decide) (by decide) (by decide) (by decide) (by decide)
        (by decide)).trans hgxload
    · rcases hcase3 with ⟨-, hstB⟩ | ⟨-, lo, vo, vt, -, -, hstB⟩
      · rw [hstB]
        refine (writeLoadResults_other n (sv + nv) (ls + nl) (ls + nl)
          (sv + nv) 0 { gx with edges := es' } "load" (by decide) (by decide)
          (by decide) (by decide) (by decide) (by decide) (by decide)
          (by decide) (by decide) (by decide)).trans ?_
        show lookupA (nodeMap { gx with edges := es' } n) "load" = _
        have hnm : nodeMap { gx with edges := es' } n = nodeMap gx n := rfl
        rw [hnm]
        exact hgxload
      · rw [hstB]
        refine (writeLoadResults_other n (sv + nv) (ls + nl) lo vo vt
          { gx with edges := es' } "load" (by decide) (by decide) (by decide)
          (by decide) (by decide) (by decide) (by decide) (by decide)
          (by decide) (by decide)).trans ?_
        show lookupA (nodeMap { gx with edges := es' } n) "load" = _
        have hnm : nodeMap { gx with edges := es' } n = nodeMap gx n := rfl
        rw [hnm]
        exact hgxload
  · intro hpos
    rcases hcase with ⟨hnpos, -⟩ | ⟨-, es', ws2, hue, hcase3⟩
    · exact absurd hpos hnpos
    · have hesB : stB.g.edges = es' := by
        rcases hcase3 with ⟨-, hstB⟩ | ⟨-, lo, vo, vt, -, -, hstB⟩
        · rw [hstB]
          exact (writeLoadResults_edges _ _ _ _ _ _ _ _).trans rfl
        · rw [hstB]
          exact (writeLoadResults_edges _ _ _ _ _ _ _ _).trans rfl
      rw [hfinalOE, hesB]
      have hrelU := updateEdges_none hue
      have hfiltU : List.Forall₂ (fun e0 e1 : Edge =>
          (e0.src ≠ n ∧ e1 = e0) ∨
          (e0.src = n ∧ ∃ ws0, applyLoadEdge ⟨true, ["load"], tf, vr, of⟩
            "load" (safe_divide (ls + nl) (sv + nv)) e0 = .ok (e1, ws0)))
          (gx.edges.filter (fun e => e.src == n))
          (es'.filter (fun e => e.src == n)) := by
        refine forall₂_filter (fun a b hab => ?_) hrelU
        rcases hab with ⟨-, rfl⟩ | ⟨ha, ws0, happ⟩
        · rfl
        · rw [(applyLoadEdge_frame_ok happ).1]
      rw [hOE] at hfiltU
      refine forall₂_imp_mem hfiltU (fun a b ha hab => ?_)
      intro s ve hid hvol hflagT
      have hb := List.of_mem_filter ha
      have hasrc : a.src = n := eq_of_beq hb
      rcases hab with ⟨hne, -⟩ | ⟨-, ws0, happ⟩
      · exact absurd hasrc hne
      · have htr : (⟨true, ["load"], tf, vr, of⟩ : Config).treated =
            true := rfl
        have hflag : (⟨true, ["load"], tf, vr, of⟩ :
            Config).treated_flags.any (fun f => strIn f s) = true := hflagT
        have hbdata := applyLoadEdge_ok_treated htr hid hvol hflag happ
        rw [hbdata]
        exact lookupA_setA_self _ _ _

/-- C1 witness: on `cgC1` (treated out-edge `X-TR` of volume 100 at node A
with inflow volume `0 + 100` and inflow load 10), the amended claim
applies: the treated edge ends with load
`(1 - 7/10) * (10 / 100) * 100 = 3`. -/
theorem C1_witness :
    strIn "TR" "X-TR" = true ∧
    ∃ li,
      nAttr (solve ⟨true, ["load"], ["TR"], ["INF", "HU"], ["OF"]⟩
        cgC1).graph "A" "load" = some (.num li) ∧
      (0 < li →
        List.Forall₂ (fun e0 e1 => ∀ s ve,
            lookupA e0.data "id" = some (.str s) →
            lookupA e0.data "volume" = some (.num ve) →
            ["TR"].any (fun f => strIn f s) = true →
            lookupA e1.data "load" =
              some (.num ((1 - 7/10) * safe_divide li (0 + 100) * ve)))
          (cgC1.edges.filter (fun e => e.src == "A"))
          ((solve ⟨true, ["load"], ["TR"], ["INF", "HU"], ["OF"]⟩
            cgC1).graph.edges.filter (fun e => e.src == "A"))) := by
  refine ⟨by decide, ?_⟩
  refine C1_treated_edge_load ["TR"] ["INF", "HU"] ["OF"] cgC1 "A" 0 100
    (by decide) (by decide) ?_ ?_ ?_ (by norm_num)
  · simp [solve, topological_sort, topoAux, nodeKeys, cgC1, List.find?,
      List.erase, beq_eq_decideEq, runNodes, processNode, processLoadCols,
      processLoadCol, numGetD, nodeMap, nAttr, lookupA, sum_edge_attr,
      sumEdgeAttrAux, edgesOf, List.filter, setNode, setA, safe_divide,
      updateEdges, applyLoadEdge, overwriteDiag, asNum, anyIn, strIn, isSub,
      isPre, writeLoadResults, show ((7:ℚ)/10 < 1) from by norm_num,
      show ¬((10:ℚ)/100 = 0) from by norm_num,
      show ¬((100:ℚ) = 0) from by norm_num,
      show ((0:ℚ) < 10) from by norm_num,
      show ((0:ℚ) < (1 - 7/10) * (10/100) * 100) from by norm_num]
  · simp [sum_edge_attr, sumEdgeAttrAux, edgesOf, List.filter, cgC1,
      beq_eq_decideEq]
  · simp [numGetD, nodeMap, cgC1, lookupA, beq_eq_decideEq]

/-- The percent-difference attribute is untouched by one load-column
pass. -/
theorem processLoadCol_ok_pct {cfg : Config} {n : String} {vol_in : ℚ}
    {g : Graph} {ws : List Warning} {st' : St}
    (h : processLoadCol cfg n vol_in "load" ⟨g, ws⟩ = (st', none)) :
    nAttr st'.g n "volume_pct_diff" = nAttr g n "volume_pct_diff" := by
  obtain ⟨ls, nl, -, -, g2, hg2, hcase⟩ := processLoadCol_ok h
  have hg2v : nAttr g2 n "volume_pct_diff" = nAttr g n "volume_pct_diff" := by
    subst hg2
    simp [nAttr_setNode]
  have hwlr : ∀ (li lo vo vt : ℚ) (gg : Graph),
      nAttr (writeLoadResults n "load" vol_in li lo vo vt gg) n
        "volume_pct_diff" = nAttr gg n "volume_pct_diff" := by
    intro li lo vo vt gg
    exact writeLoadResults_other n vol_in li lo vo vt gg "volume_pct_diff"
      (by decide) (by decide) (by decide) (by decide) (by decide) (by decide)
      (by decide) (by decide) (by decide) (by decide)
  rcases hcase with ⟨-, hst⟩ | ⟨-, es', ws2, -, g3, hg3, hinner⟩
  · rw [hst]
    exact (hwlr _ _ _ _ _).trans hg2v
  · have hg3v : nAttr g3 n "volume_pct_diff" = nAttr g2 n "volume_pct_diff" := by
      subst hg3; rfl
    rcases hinner with ⟨-, hst⟩ | ⟨-, lo, vo, vt, -, -, -, hst⟩
    · rw [hst]
      exact ((hwlr _ _ _ _ _).trans hg3v).trans hg2v
    · rw [hst]
      exact ((hwlr _ _ _ _ _).trans hg3v).trans hg2v

/-- The percent difference stored by one successful node step: the
expected value `ck` is read with the node's own pre-overwrite volume as
default, and the stored value is the guarded quotient times 100. -/
theorem processNode_ok_pct {cfg : Config} {n : String} {g : Graph}
    {ws : List Warning} {st' : St} (hL : cfg.load_cols = ["load"])
    (h : processNode cfg n ⟨g, ws⟩ = (st', none)) :
    ∃ nv sv ck, numGetD (nodeMap g n) "volume" 0 = .ok nv ∧
      sum_edge_attr g n "volume" .in_edges none none none = .ok sv ∧
      numGetD (nodeMap g n) "_ck_volume" nv = .ok ck ∧
      nAttr st'.g n "volume_pct_diff" =
        some (.num (safe_divide (ck - (sv + nv)) ck * 100)) := by
  obtain ⟨nv, sv, hnv, hsv, ck, hck, g2, hg2, hcase⟩ := processNode_ok h
  have hckg : numGetD (nodeMap g n) "_ck_volume" nv = .ok ck := by
    rw [← hck]
    show numGetD (nodeMap g n) "_ck_volume" nv =
      numGetD (nodeMap (setNode g n "volume" (.num (sv + nv))) n)
        "_ck_volume" nv
    rw [numGetD, numGetD, nodeMap_setNode_self,
      lookupA_setA_ne _ _ (by decide)]
  have hg2v : nAttr g2 n "volume_pct_diff" =
      some (.num (safe_divide (ck - (sv + nv)) ck * 100)) := by
    subst hg2
    simp [nAttr_setNode]
  rcases hcase with ⟨hz, hst⟩ | ⟨hz, hrun⟩
  · rw [hst]
    exact ⟨nv, sv, ck, hnv, hsv, hckg, hg2v⟩
  · rw [hL] at hrun
    have hone := processLoadCols_one hrun
    exact ⟨nv, sv, ck, hnv, hsv, hckg, (processLoadCol_ok_pct hone).trans hg2v⟩

/-- After a successful `solve`, each node's stored percent difference
equals the guarded quotient formula over values read on the input graph,
with the node's own volume as the default expected value. -/
theorem solve_pct_value {cfg : Config} {G : Graph}
    (hL : cfg.load_cols = ["load"]) (hnd : (nodeKeys G).Nodup) {n : String}
    (hn : n ∈ nodeKeys G) (hok : (solve cfg G).error = none) :
    ∃ sv nv ck, sum_edge_attr G n "volume" .in_edges none none none = .ok sv ∧
      numGetD (nodeMap G n) "volume" 0 = .ok nv ∧
      numGetD (nodeMap G n) "_ck_volume" nv = .ok ck ∧
      nAttr (solve cfg G).graph n "volume_pct_diff" =
        some (.num (safe_divide (ck - (sv + nv)) ck * 100)) := by
  cases ht : topological_sort G with
  | none => simp [solve, ht] at hok
  | some order =>
    cases hr : runNodes cfg order ⟨G, []⟩ with
    | mk st er =>
      simp only [solve, ht, hr] at hok ⊢
      subst hok
      have hperm := topological_sort_perm ht
      have hordnd : order.Nodup := (List.Perm.nodup_iff hperm).mpr hnd
      have hnord : n ∈ order := hperm.mem_iff.mpr hn
      obtain ⟨l1, l2, horder⟩ := List.append_of_mem hnord
      subst horder
      have hnl1 : n ∉ l1 := by
        rw [List.nodup_append] at hordnd
        intro hc
        exact hordnd.2.2 hc (by simp)
      have hnl2 : n ∉ l2 := by
        rw [List.nodup_append] at hordnd
        exact (List.nodup_cons.mp hordnd.2.1).1
      obtain ⟨stA, stB, h1, h2, h3⟩ := runNodes_split hr
      have hfA := runNodes_frame h1
      have hmapA : nodeMap stA.g n = nodeMap G n := hfA.2.1 n hnl1
      have hrelA : List.Forall₂ (fun e0 e1 => e1.src = e0.src ∧ e1.dst = e0.dst ∧
          lookupA e1.data "volume" = lookupA e0.data "volume")
          G.edges stA.g.edges :=
        List.Forall₂.imp (fun a b hab => ⟨hab.1, hab.2.1,
          hab.2.2.1 "volume" (by rw [hL]; simp)⟩) hfA.2.2
      have hsumA : sum_edge_attr stA.g n "volume" .in_edges none none none =
          sum_edge_attr G n "volume" .in_edges none none none :=
        sum_edge_attr_eq_of_frame hrelA
      obtain ⟨stA1, stA2⟩ := stA
      obtain ⟨nv, sv, ck, hnv, hsv, hck, hval⟩ := processNode_ok_pct hL h2
      have hfB := runNodes_frame h3
      have hmapB : nodeMap st.g n = nodeMap stB.g n := hfB.2.1 n hnl2
      refine ⟨sv, nv, ck, ?_, ?_, ?_, ?_⟩
      · rw [← hsumA]; exact hsv
      · rw [← hmapA]; exact hnv
      · rw [← hmapA]; exact hck
      · show lookupA (nodeMap st.g n) "volume_pct_diff" = _
        rw [hmapB]
        exact hval

/-- Two graphs agreeing on their edges, node key lists and every node
attribute except the expected-volume and percent-difference attributes of
one node `n`, where both carry numeric expected values `c1` and `c2`. -/
def Agree (n : String) (c1 c2 : ℚ) (g g' : Graph) : Prop :=
  g.edges = g'.edges ∧
  nodeKeys g = nodeKeys g' ∧
  nAttr g n "_ck_volume" = some (.num c1) ∧
  nAttr g' n "_ck_volume" = some (.num c2) ∧
  ∀ m k, ¬(m = n ∧ (k = "_ck_volume" ∨ k = "volume_pct_diff")) →
    nAttr g m k = nAttr g' m k

theorem Agree_setNode {n : String} {c1 c2 : ℚ} {g g' : Graph}
    (h : Agree n c1 c2 g g') (m k : String) (v : AttrVal)
    (hk : k ≠ "_ck_volume") :
    Agree n c1 c2 (setNode g m k v) (setNode g' m k v) := by
  obtain ⟨he, hkeys, hc1, hc2, hrest⟩ := h
  refine ⟨?_, ?_, ?_, ?_, ?_⟩
  · rw [setNode_edges, setNode_edges, he]
  · rw [nodeKeys_setNode_if, nodeKeys_setNode_if, hkeys]
  · rw [nAttr_setNode]
    by_cases hm : n = m
    · rw [if_pos hm, if_neg (fun hh => hk hh.symm)]
      exact hc1
    · rw [if_neg hm]
      exact hc1
  · rw [nAttr_setNode]
    by_cases hm : n = m
    · rw [if_pos hm, if_neg (fun hh => hk hh.symm)]
      exact hc2
    · rw [if_neg hm]
      exact hc2
  · intro m' k' hcond
    rw [nAttr_setNode, nAttr_setNode]
    by_cases hm : m' = m
    · rw [if_pos hm, if_pos hm]
      by_cases hkk : k' = k
      · rw [if_pos hkk, if_pos hkk]
      · rw [if_neg hkk, if_neg hkk]
        exact hrest m' k' hcond
    · rw [if_neg hm, if_neg hm]
      exact hrest m' k' hcond

theorem Agree_setNode_pct {n : String} {c1 c2 : ℚ} {g g' : Graph}
    (h : Agree n c1 c2 g g') (v v' : AttrVal) :
    Agree n c1 c2 (setNode g n "volume_pct_diff" v)
      (setNode g' n "volume_pct_diff" v') := by
  obtain ⟨he, hkeys, hc1, hc2, hrest⟩ := h
  refine ⟨?_, ?_, ?_, ?_, ?_⟩
  · rw [setNode_edges, setNode_edges, he]
  · rw [nodeKeys_setNode_if, nodeKeys_setNode_if, hkeys]
  · rw [nAttr_setNode, if_pos rfl, if_neg (by decide)]
    exact hc1
  · rw [nAttr_setNode, if_pos rfl, if_neg (by decide)]
    exact hc2
  · intro m' k' hcond
    rw [nAttr_setNode, nAttr_setNode]
    by_cases hm : m' = n
    · rw [if_pos hm, if_pos hm]
      have hkk : k' ≠ "volume_pct_diff" := fun hh => hcond ⟨hm, Or.inr hh⟩
      rw [if_neg hkk, if_neg hkk]
      exact hrest m' k' hcond
    · rw [if_neg hm, if_neg hm]
      exact hrest m' k' hcond

theorem Agree_setEdges {n : String} {c1 c2 : ℚ} {g g' : Graph}
    (h : Agree n c1 c2 g g') (es : List Edge) :
    Agree n c1 c2 { g with edges := es } { g' with edges := es } :=
  ⟨rfl, h.2.1, h.2.2.1, h.2.2.2.1, h.2.2.2.2⟩

theorem numGetD_agree {n : String} {c1 c2 : ℚ} {g g' : Graph}
    (h : Agree n c1 c2 g g') (m k : String) (d : ℚ)
    (hcond : ¬(m = n ∧ (k = "_ck_volume" ∨ k = "volume_pct_diff"))) :
    numGetD (nodeMap g m) k d = numGetD (nodeMap g' m) k d := by
  have hattr : lookupA (nodeMap g m) k = lookupA (nodeMap g' m) k :=
    h.2.2.2.2 m k hcond
  rw [numGetD, numGetD, hattr]

theorem sum_edge_attr_congr_edges {g g' : Graph} (h : g.edges = g'.edges)
    (m attr : String) (meth : EdgeMethod) (fk : Option String)
    (i e : Option (List String)) :
    sum_edge_attr g m attr meth fk i e =
      sum_edge_attr g' m attr meth fk i e := by
  rw [sum_edge_attr, sum_edge_attr]
  cases meth <;> simp [edgesOf, h]

theorem Agree_writeLoadResults {n : String} {c1 c2 : ℚ} {g g' : Graph}
    (h : Agree n c1 c2 g g') (m : String) (vi li lo vo vt : ℚ) :
    Agree n c1 c2 (writeLoadResults m "load" vi li lo vo vt g)
      (writeLoadResults m "load" vi li lo vo vt g') := by
  simp only [writeLoadResults]
  by_cases hpos : li > 0
  · rw [if_pos hpos, if_pos hpos]
    iterate 10 refine Agree_setNode ?_ _ _ _ (by decide)
    exact h
  · rw [if_neg hpos, if_neg hpos]
    iterate 9 refine Agree_setNode ?_ _ _ _ (by decide)
    exact h

/-- One load-column pass started on two agreeing states takes the same
branches, issues the same warnings and error, and ends in agreeing
states. -/
theorem processLoadCol_agree {cfg : Config} {n : String} {c1 c2 : ℚ}
    {m : String} {vi : ℚ} {g g' : Graph} {ws : List Warning}
    (h : Agree n c1 c2 g g') {st1 : St} {er : Option SolveErr}
    (hpc : processLoadCol cfg m vi "load" ⟨g, ws⟩ = (st1, er)) :
    ∃ g1', processLoadCol cfg m vi "load" ⟨g', ws⟩ = (⟨g1', st1.ws⟩, er) ∧
      Agree n c1 c2 st1.g g1' := by
  have hsum : sum_edge_attr g' m "load" .in_edges none none none =
      sum_edge_attr g m "load" .in_edges none none none :=
    (sum_edge_attr_congr_edges h.1 m "load" .in_edges none none none).symm
  simp only [processLoadCol] at hpc ⊢
  rw [hsum]
  cases hls : sum_edge_attr g m "load" .in_edges none none none with
  | error e1 =>
    rw [hls] at hpc
    rcases hpc with ⟨rfl, rfl⟩
    exact ⟨g', rfl, h⟩
  | ok ls =>
    rw [hls] at hpc
    have hnleq := numGetD_agree h m "load" 0
      (by rintro ⟨-, hk | hk⟩ <;> exact absurd hk (by decide))
    rw [← hnleq]
    cases hnl : numGetD (nodeMap g m) "load" 0 with
    | error e1 =>
      rw [hnl] at hpc
      rcases hpc with ⟨rfl, rfl⟩
      exact ⟨g', rfl, h⟩
    | ok nl =>
      rw [hnl] at hpc
      simp only at hpc ⊢
      have hg2 : Agree n c1 c2
          (setNode (setNode g m "load" (.num (ls + nl))) m ("load" ++ "_conc")
            (.num (safe_divide (ls + nl) vi)))
          (setNode (setNode g' m "load" (.num (ls + nl))) m
            ("load" ++ "_conc") (.num (safe_divide (ls + nl) vi))) :=
        Agree_setNode (Agree_setNode h m "load" _ (by decide)) m _ _
          (by decide)
      generalize hga : setNode (setNode g m "load" (AttrVal.num (ls + nl))) m
        ("load" ++ "_conc") (AttrVal.num (safe_divide (ls + nl) vi)) = ga
        at hpc hg2
      generalize hgb : setNode (setNode g' m "load" (AttrVal.num (ls + nl))) m
        ("load" ++ "_conc") (AttrVal.num (safe_divide (ls + nl) vi)) = gb
        at hg2 ⊢
      by_cases hpos : ls + nl > 0
      · rw [if_pos hpos] at hpc ⊢
        have he : gb.edges = ga.edges := hg2.1.symm
        rw [he]
        cases hue : updateEdges cfg m "load" (safe_divide (ls + nl) vi)
            ga.edges with
        | mk es' pr =>
          obtain ⟨ws2, er2⟩ := pr
          rw [hue] at hpc
          cases er2 with
          | some e2 =>
            simp only at hpc ⊢
            rcases hpc with ⟨rfl, rfl⟩
            exact ⟨{ gb with edges := es' }, rfl, Agree_setEdges hg2 es'⟩
          | none =>
            simp only at hpc ⊢
            have hg3 : Agree n c1 c2 { ga with edges := es' }
                { gb with edges := es' } := Agree_setEdges hg2 es'
            by_cases hout : cfg.outfall_flags.any (fun f => strIn f m) = true
            · rw [if_pos hout] at hpc ⊢
              rcases hpc with ⟨rfl, rfl⟩
              exact ⟨writeLoadResults m "load" vi (ls + nl) (ls + nl) vi 0
                { gb with edges := es' }, rfl,
                Agree_writeLoadResults hg3 m vi (ls + nl) (ls + nl) vi 0⟩
            · rw [if_neg hout] at hpc ⊢
              have hs1 : sum_edge_attr { gb with edges := es' } m "load"
                  .out_edges none none none =
                  sum_edge_attr { ga with edges := es' } m "load"
                    .out_edges none none none :=
                sum_edge_attr_congr_edges rfl m "load" .out_edges none none
                  none
              rw [hs1]
              cases hlo : sum_edge_attr { ga with edges := es' } m "load"
                  .out_edges none none none with
              | error e2 =>
                rw [hlo] at hpc
                rcases hpc with ⟨rfl, rfl⟩
                exact ⟨{ gb with edges := es' }, rfl, hg3⟩
              | ok lo =>
                rw [hlo] at hpc
                have hs2 : sum_edge_attr { gb with edges := es' } m "volume"
                    .out_edges (some "id") none
                    (some cfg.vol_reduced_flags) =
                    sum_edge_attr { ga with edges := es' } m "volume"
                      .out_edges (some "id") none
                      (some cfg.vol_reduced_flags) :=
                  sum_edge_attr_congr_edges rfl m "volume" .out_edges
                    (some "id") none (some cfg.vol_reduced_flags)
                rw [hs2]
                cases hvo : sum_edge_attr { ga with edges := es' } m "volume"
                    .out_edges (some "id") none
                    (some cfg.vol_reduced_flags) with
                | error e2 =>
                  rw [hvo] at hpc
                  rcases hpc with ⟨rfl, rfl⟩
                  exact ⟨{ gb with edges := es' }, rfl, hg3⟩
                | ok vo =>
                  rw [hvo] at hpc
                  have hs3 : sum_edge_attr { gb with edges := es' } m
                      "volume" .out_edges (some "id")
                      (some cfg.treated_flags) none =
                      sum_edge_attr { ga with edges := es' } m "volume"
                        .out_edges (some "id") (some cfg.treated_flags)
                        none :=
                    sum_edge_attr_congr_edges rfl m "volume" .out_edges
                      (some "id") (some cfg.treated_flags) none
                  rw [hs3]
                  cases hvt : sum_edge_attr { ga with edges := es' } m
                      "volume" .out_edges (some "id")
                      (some cfg.treated_flags) none with
                  | error e2 =>
                    rw [hvt] at hpc
                    rcases hpc with ⟨rfl, rfl⟩
                    exact ⟨{ gb with edges := es' }, rfl, hg3⟩
                  | ok vt =>
                    rw [hvt] at hpc
                    rcases hpc with ⟨rfl, rfl⟩
                    exact ⟨writeLoadResults m "load" vi (ls + nl) lo vo vt
                      { gb with edges := es' }, rfl,
                      Agree_writeLoadResults hg3 m vi (ls + nl) lo vo vt⟩
      · rw [if_neg hpos] at hpc ⊢
        rcases hpc with ⟨rfl, rfl⟩
        exact ⟨writeLoadResults m "load" vi (ls + nl) (ls + nl) vi 0 gb, rfl,
          Agree_writeLoadResults hg2 m vi (ls + nl) (ls + nl) vi 0⟩

theorem processLoadCols_agree {cfg : Config} {n : String} {c1 c2 : ℚ}
    {m : String} {vi : ℚ} {g g' : Graph} {ws : List Warning}
    (h : Agree n c1 c2 g g') {st1 : St} {er : Option SolveErr}
    (hpl : processLoadCols cfg m vi ["load"] ⟨g, ws⟩ = (st1, er)) :
    ∃ g1', processLoadCols cfg m vi ["load"] ⟨g', ws⟩ = (⟨g1', st1.ws⟩, er) ∧
      Agree n c1 c2 st1.g g1' := by
  simp only [processLoadCols] at hpl ⊢
  cases hp : processLoadCol cfg m vi "load" ⟨g, ws⟩ with
  | mk stm erm =>
    rw [hp] at hpl
    obtain ⟨g1', hp', hag⟩ := processLoadCol_agree h hp
    rw [hp']
    cases erm with
    | none =>
      simp only [processLoadCols] at hpl ⊢
      rcases hpl with ⟨rfl, rfl⟩
      exact ⟨g1', rfl, hag⟩
    | some e1 =>
      simp only at hpl ⊢
      rcases hpl with ⟨rfl, rfl⟩
      exact ⟨g1', rfl, hag⟩

/-- One node step started on two agreeing states: same branches, same
warnings and error, agreeing results.  The expected-volume values `c1`,
`c2` are read only at node `n` and feed only the percent-difference
write there. -/
theorem processNode_agree {cfg : Config} (hL : cfg.load_cols = ["load"])
    {n : String} {c1 c2 : ℚ} {m : String} {g g' : Graph} {ws : List Warning}
    (h : Agree n c1 c2 g g') {st1 : St} {er : Option SolveErr}
    (hpn : processNode cfg m ⟨g, ws⟩ = (st1, er)) :
    ∃ g1', processNode cfg m ⟨g', ws⟩ = (⟨g1', st1.ws⟩, er) ∧
      Agree n c1 c2 st1.g g1' := by
  simp only [processNode] at hpn ⊢
  have hnveq := numGetD_agree h m "volume" 0
    (by rintro ⟨-, hk | hk⟩ <;> exact absurd hk (by decide))
  rw [← hnveq]
  cases hnv : numGetD (nodeMap g m) "volume" 0 with
  | error e1 =>
    rw [hnv] at hpn
    rcases hpn with ⟨rfl, rfl⟩
    exact ⟨g', rfl, h⟩
  | ok nv =>
    rw [hnv] at hpn
    have hsveq : sum_edge_attr g' m "volume" .in_edges none none none =
        sum_edge_attr g m "volume" .in_edges none none none :=
      (sum_edge_attr_congr_edges h.1 m "volume" .in_edges none none
        none).symm
    rw [hsveq]
    cases hsv : sum_edge_attr g m "volume" .in_edges none none none with
    | error e1 =>
      rw [hsv] at hpn
      rcases hpn with ⟨rfl, rfl⟩
      exact ⟨g', rfl, h⟩
    | ok sv =>
      rw [hsv] at hpn
      simp only at hpn ⊢
      have hg1 : Agree n c1 c2 (setNode g m "volume" (.num (sv + nv)))
          (setNode g' m "volume" (.num (sv + nv))) :=
        Agree_setNode h m "volume" _ (by decide)
      by_cases hm : m = n
      · subst hm
        have hck1 : numGetD (nodeMap (setNode g m "volume"
            (AttrVal.num (sv + nv))) m) "_ck_volume" nv = .ok c1 := by
          rw [numGetD, nodeMap_setNode_self, lookupA_setA_ne _ _ (by decide),
            show lookupA (nodeMap g m) "_ck_volume" =
              some (AttrVal.num c1) from h.2.2.1]
        have hck2 : numGetD (nodeMap (setNode g' m "volume"
            (AttrVal.num (sv + nv))) m) "_ck_volume" nv = .ok c2 := by
          rw [numGetD, nodeMap_setNode_self, lookupA_setA_ne _ _ (by decide),
            show lookupA (nodeMap g' m) "_ck_volume" =
              some (AttrVal.num c2) from h.2.2.2.1]
        rw [hck1] at hpn
        rw [hck2]
        simp only at hpn ⊢
        have hg2 : Agree m c1 c2
            (setNode (setNode g m "volume" (.num (sv + nv))) m
              "volume_pct_diff"
              (.num (safe_divide (c1 - (sv + nv)) c1 * 100)))
            (setNode (setNode g' m "volume" (.num (sv + nv))) m
              "volume_pct_diff"
              (.num (safe_divide (c2 - (sv + nv)) c2 * 100))) :=
          Agree_setNode_pct hg1 _ _
        by_cases hvz : sv + nv ≠ 0
        · rw [if_pos hvz] at hpn ⊢
          rw [hL] at hpn ⊢
          exact processLoadCols_agree hg2 hpn
        · rw [if_neg hvz] at hpn ⊢
          rcases hpn with ⟨rfl, rfl⟩
          exact ⟨_, rfl, hg2⟩
      · have hckeq := numGetD_agree hg1 m "_ck_volume" nv
          (fun hc => hm hc.1)
        rw [← hckeq]
        cases hck : numGetD (nodeMap (setNode g m "volume"
            (AttrVal.num (sv + nv))) m) "_ck_volume" nv with
        | error e1 =>
          rw [hck] at hpn
          rcases hpn with ⟨rfl, rfl⟩
          exact ⟨setNode g' m "volume" (.num (sv + nv)), rfl, hg1⟩
        | ok ck =>
          rw [hck] at hpn
          simp only at hpn ⊢
          have hg2 : Agree n c1 c2
              (setNode (setNode g m "volume" (.num (sv + nv))) m
                "volume_pct_diff"
                (.num (safe_divide (ck - (sv + nv)) ck * 100)))
              (setNode (setNode g' m "volume" (.num (sv + nv))) m
                "volume_pct_diff"
                (.num (safe_divide (ck - (sv + nv)) ck * 100))) :=
            Agree_setNode hg1 m "volume_pct_diff" _ (by decide)
          by_cases hvz : sv + nv ≠ 0
          · rw [if_pos hvz] at hpn ⊢
            rw [hL] at hpn ⊢
            exact processLoadCols_agree hg2 hpn
          · rw [if_neg hvz] at hpn ⊢
            rcases hpn with ⟨rfl, rfl⟩
            exact ⟨_, rfl, hg2⟩

/-- The whole traversal on two agreeing states: same warnings and error,
agreeing final graphs. -/
theorem runNodes_agree {cfg : Config} (hL : cfg.load_cols = ["load"])
    {n : String} {c1 c2 : ℚ} :
    ∀ {l : List String} {g g' : Graph} {ws : List Warning} {st1 : St}
      {er : Option SolveErr},
      Agree n c1 c2 g g' →
      runNodes cfg l ⟨g, ws⟩ = (st1, er) →
      ∃ g1', runNodes cfg l ⟨g', ws⟩ = (⟨g1', st1.ws⟩, er) ∧
        Agree n c1 c2 st1.g g1' := by
  intro l
  induction l with
  | nil =>
    intro g g' ws st1 er h hr
    simp only [runNodes] at hr ⊢
    rcases hr with ⟨rfl, rfl⟩
    exact ⟨g', rfl, h⟩
  | cons m rest ih =>
    intro g g' ws st1 er h hr
    simp only [runNodes] at hr ⊢
    cases hp : processNode cfg m ⟨g, ws⟩ with
    | mk stm erm =>
      rw [hp] at hr
      obtain ⟨g1', hp', ha⟩ := processNode_agree hL h hp
      rw [hp']
      cases erm with
      | none =>
        simp only at hr ⊢
        obtain ⟨stmg, stmw⟩ := stm
        exact ih ha hr
      | some e1 =>
        simp only at hr ⊢
        rcases hr with ⟨rfl, rfl⟩
        exact ⟨g1', rfl, ha⟩

/-- Changing the expected-volume value at a node changes no part of the
`solve` outcome except the two expected-volume attributes at that node:
same error, same warnings, identical edges, and identical node attributes
everywhere else. -/
theorem solve_ck_agree (cfg : Config) (hL : cfg.load_cols = ["load"])
    (G : Graph) (n : String) (c1 c2 : ℚ) :
    (solve cfg (setNode G n "_ck_volume" (.num c1))).error =
      (solve cfg (setNode G n "_ck_volume" (.num c2))).error ∧
    (solve cfg (setNode G n "_ck_volume" (.num c1))).warnings =
      (solve cfg (setNode G n "_ck_volume" (.num c2))).warnings ∧
    (solve cfg (setNode G n "_ck_volume" (.num c1))).graph.edges =
      (solve cfg (setNode G n "_ck_volume" (.num c2))).graph.edges ∧
    ∀ m k, ¬(m = n ∧ (k = "_ck_volume" ∨ k = "volume_pct_diff")) →
      nAttr (solve cfg (setNode G n "_ck_volume" (.num c1))).graph m k =
        nAttr (solve cfg (setNode G n "_ck_volume" (.num c2))).graph m k := by
  have hagree0 : Agree n c1 c2 (setNode G n "_ck_volume" (.num c1))
      (setNode G n "_ck_volume" (.num c2)) := by
    refine ⟨by rw [setNode_edges, setNode_edges],
      by rw [nodeKeys_setNode_if, nodeKeys_setNode_if], ?_, ?_, ?_⟩
    · rw [nAttr_setNode, if_pos rfl, if_pos rfl]
    · rw [nAttr_setNode, if_pos rfl, if_pos rfl]
    · intro m k hcond
      rw [nAttr_setNode, nAttr_setNode]
      by_cases hm : m = n
      · rw [if_pos hm, if_pos hm]
        have hk : k ≠ "_ck_volume" := fun hh => hcond ⟨hm, Or.inl hh⟩
        rw [if_neg hk, if_neg hk]
      · rw [if_neg hm, if_neg hm]
  have hkeys : nodeKeys (setNode G n "_ck_volume" (.num c1)) =
      nodeKeys (setNode G n "_ck_volume" (.num c2)) := hagree0.2.1
  have hlen : (setNode G n "_ck_volume" (.num c1)).nodes.length =
      (setNode G n "_ck_volume" (.num c2)).nodes.length := by
    have h1 := congrArg List.length hkeys
    simpa [nodeKeys] using h1
  have htsort : topological_sort (setNode G n "_ck_volume" (.num c1)) =
      topological_sort (setNode G n "_ck_volume" (.num c2)) := by
    rw [topological_sort, topological_sort, setNode_edges, setNode_edges,
      hlen, hkeys]
  cases ht : topological_sort (setNode G n "_ck_volume" (.num c1)) with
  | none =>
    have ht2 : topological_sort (setNode G n "_ck_volume" (.num c2)) =
        none := htsort.symm.trans ht
    simp only [solve, ht, ht2]
    exact ⟨trivial, trivial, by rw [setNode_edges, setNode_edges],
      hagree0.2.2.2.2⟩
  | some order =>
    have ht2 : topological_sort (setNode G n "_ck_volume" (.num c2)) =
        some order := htsort.symm.trans ht
    cases hr : runNodes cfg order ⟨setNode G n "_ck_volume" (.num c1), []⟩
      with
    | mk st er =>
      obtain ⟨g1', hr', hag⟩ := runNodes_agree hL hagree0 hr
      simp only [solve, ht, ht2, hr, hr']
      exact ⟨trivial, trivial, hag.1, hag.2.2.2.2⟩

/-- C7 (amended): the stored percent difference equals
`safe_divide (ck - vol_in) ck * 100`, where `ck` is the expected-volume
attribute read with the node's own pre-overwrite source volume as the
absent-attribute default (so an absent attribute yields
`(node_vol - vol_in) / node_vol * 100`, not 0, and an expected value 0
yields 0 through the guarded division); and the expected-volume value is
diagnostic only: changing it changes no other attribute, no edge, no
warning and no error of the solve outcome. -/
theorem C7_pct_diff_formula (treatedB : Bool) (tf vr of : List String)
    (G : Graph) (n : String)
    (hnd : (nodeKeys G).Nodup) (hn : n ∈ nodeKeys G)
    (hok : (solve ⟨treatedB, ["load"], tf, vr, of⟩ G).error = none) :
    (∃ sv nv ck,
      sum_edge_attr G n "volume" .in_edges none none none = .ok sv ∧
      numGetD (nodeMap G n) "volume" 0 = .ok nv ∧
      numGetD (nodeMap G n) "_ck_volume" nv = .ok ck ∧
      nAttr (solve ⟨treatedB, ["load"], tf, vr, of⟩ G).graph n
        "volume_pct_diff" =
        some (.num (safe_divide (ck - (sv + nv)) ck * 100))) ∧
    (∀ c1 c2 : ℚ,
      (solve ⟨treatedB, ["load"], tf, vr, of⟩
        (setNode G n "_ck_volume" (.num c1))).error =
        (solve ⟨treatedB, ["load"], tf, vr, of⟩
          (setNode G n "_ck_volume" (.num c2))).error ∧
      (solve ⟨treatedB, ["load"], tf, vr, of⟩
        (setNode G n "_ck_volume" (.num c1))).warnings =
        (solve ⟨treatedB, ["load"], tf, vr, of⟩
          (setNode G n "_ck_volume" (.num c2))).warnings ∧
      (solve ⟨treatedB, ["load"], tf, vr, of⟩
        (setNode G n "_ck_volume" (.num c1))).graph.edges =
        (solve ⟨treatedB, ["load"], tf, vr, of⟩
          (setNode G n "_ck_volume" (.num c2))).graph.edges ∧
      ∀ m k, ¬(m = n ∧ (k = "_ck_volume" ∨ k = "volume_pct_diff")) →
        nAttr (solve ⟨treatedB, ["load"], tf, vr, of⟩
          (setNode G n "_ck_volume" (.num c1))).graph m k =
          nAttr (solve ⟨treatedB, ["load"], tf, vr, of⟩
            (setNode G n "_ck_volume" (.num c2))).graph m k) := by
  constructor
  · exact solve_pct_value rfl hnd hn hok
  · intro c1 c2
    exact solve_ck_agree ⟨treatedB, ["load"], tf, vr, of⟩ rfl G n c1 c2

/-- Node B carrying both a source volume (100) and an expected-volume
attribute (200), fed by subcatchment A (volume 50). -/
def cgC7w : Graph :=
  { nodes := [("A", [("volume", .num 50)]),
      ("B", [("volume", .num 100), ("_ck_volume", .num 200)])],
    edges := [⟨"A", "B", [("id", .str "P1"), ("volume", .num 50)]⟩] }

/-- C7 witness: on `cgC7w`, node B's stored percent difference follows the
guarded formula with `ck = 200` and `vol_in = 50 + 100`, and changing the
expected value changes nothing else in the outcome. -/
theorem C7_witness :
    (∃ sv nv ck,
      sum_edge_attr cgC7w "B" "volume" .in_edges none none none = .ok sv ∧
      numGetD (nodeMap cgC7w "B") "volume" 0 = .ok nv ∧
      numGetD (nodeMap cgC7w "B") "_ck_volume" nv = .ok ck ∧
      nAttr (solve ⟨true, ["load"], ["TR"], ["INF", "HU"], ["OF"]⟩
        cgC7w).graph "B" "volume_pct_diff" =
        some (.num (safe_divide (ck - (sv + nv)) ck * 100))) ∧
    (∀ c1 c2 : ℚ,
      (solve ⟨true, ["load"], ["TR"], ["INF", "HU"], ["OF"]⟩
        (setNode cgC7w "B" "_ck_volume" (.num c1))).error =
        (solve ⟨true, ["load"], ["TR"], ["INF", "HU"], ["OF"]⟩
          (setNode cgC7w "B" "_ck_volume" (.num c2))).error ∧
      (solve ⟨true, ["load"], ["TR"], ["INF", "HU"], ["OF"]⟩
        (setNode cgC7w "B" "_ck_volume" (.num c1))).warnings =
        (solve ⟨true, ["load"], ["TR"], ["INF", "HU"], ["OF"]⟩
          (setNode cgC7w "B" "_ck_volume" (.num c2))).warnings ∧
      (solve ⟨true, ["load"], ["TR"], ["INF", "HU"], ["OF"]⟩
        (setNode cgC7w "B" "_ck_volume" (.num c1))).graph.edges =
        (solve ⟨true, ["load"], ["TR"], ["INF", "HU"], ["OF"]⟩
          (setNode cgC7w "B" "_ck_volume" (.num c2))).graph.edges ∧
      ∀ m k, ¬(m = "B" ∧ (k = "_ck_volume" ∨ k = "volume_pct_diff")) →
        nAttr (solve ⟨true, ["load"], ["TR"], ["INF", "HU"], ["OF"]⟩
          (setNode cgC7w "B" "_ck_volume" (.num c1))).graph m k =
          nAttr (solve ⟨true, ["load"], ["TR"], ["INF", "HU"], ["OF"]⟩
            (setNode cgC7w "B" "_ck_volume" (.num c2))).graph m k) :=
  C7_pct_diff_formula true ["TR"] ["INF", "HU"] ["OF"] cgC7w "B"
    (by decide) (by decide)
    (by simp [solve, topological_sort, topoAux, nodeKeys, cgC7w, List.find?,
      List.erase, beq_eq_decideEq, runNodes, processNode, processLoadCols,
      processLoadCol, numGetD, nodeMap, nAttr, lookupA, sum_edge_attr,
      sumEdgeAttrAux, edgesOf, List.filter, setNode, setA, safe_divide,
      updateEdges, applyLoadEdge, overwriteDiag, asNum, anyIn, strIn, isSub,
      isPre, writeLoadResults,
      show ¬((50:ℚ) = 0) from by norm_num,
      show ¬((50:ℚ) + 100 = 0) from by norm_num,
      show ¬((150:ℚ) = 0) from by norm_num,
      show ¬((200:ℚ) = 0) from by norm_num])
